import Mathlib

/-!
Verification of the generation-orchestration engine of the next-chapter
repository: the concurrency limiter, group sequencer, bounded-retry
executor, reconciliation (review) pass, cooperative cancellation, the
asynchronous video-job poller and the descriptor expiry sweeper.

All definitions are shallow embeddings of the TypeScript source in the
`Workspace` page component: `createSemaphore`, `handleGenerateAllStoryboards`
(grouping, inline semaphore, per-group sequential retry loop, review pass),
`handleGenerateSceneStoryboard` (descriptor write/remove), `pollVideoTask`,
the project-load resume/cleanup logic and the periodic expiry sweep over
the `generating-storyboard-tasks` store.

The batch run is modelled as a small-step transition system over an
explicit state (`BatchState`, `Step`): cooperative single-threaded
scheduling is captured by letting any enabled lane fire its next atomic
block, where atomic blocks are the synchronous segments of the source
between `await` points.
-/

namespace NextChapter

/-- JavaScript truthiness of an optional string: `undefined` and `""` are
falsy, every other string is truthy. -/
def truthyS : Option String → Bool
  | none => false
  | some s => !(s == "")

/-- JS `a || b` on optional strings, returning the raw second operand when
the first is falsy (used for the candidate video-url chain). -/
def jsOrO (a b : Option String) : Option String :=
  if truthyS a then a else b

/-- JS `a || b` where `b` is a plain string (used for `status || "processing"`). -/
def jsOrS (a : Option String) (b : String) : String :=
  match a with
  | none => b
  | some s => if s == "" then b else s

/-! ### Retry executor

Embeds the retry loop of `processGroup` in `handleGenerateAllStoryboards`:

    let succeeded = false;
    const maxRetries = 2;
    for (let attempt = 0; attempt <= maxRetries; attempt++) {
      if (stopStoryboardGenRef.current) break;
      try { await handleGenerateSceneStoryboard(...); succeeded = true; break; }
      catch { ... }
    }
    if (succeeded) successCountRef.current++;
    else { failCountRef.current++; failedSceneIds.add(scene.id); }

`stop a` is the value of the cancellation flag observed at the top of
iteration `a`; `job a` tells whether the attempt with index `a` succeeds.
The result is the final `succeeded` flag paired with the number of times
the job function was invoked. -/
def retryGo (stop job : Nat → Bool) : List Nat → Bool × Nat
  | [] => (false, 0)
  | a :: rest =>
    if stop a then (false, 0)
    else if job a then (true, 1)
    else
      let r := retryGo stop job rest
      (r.1, r.2 + 1)

/-- The retry loop over attempts `0, 1, ..., maxRetries`. -/
def retryLoop (stop job : Nat → Bool) (maxRetries : Nat) : Bool × Nat :=
  retryGo stop job (List.range (maxRetries + 1))

/-- The success/failure tallies kept by `handleGenerateAllStoryboards`
(`successCountRef`, `failCountRef`, `failedSceneIds`). -/
structure Tally where
  succ : Nat
  fail : Nat
  failedIds : List Nat
deriving DecidableEq, Repr

/-- Set-like insertion mirroring `failedSceneIds.add(scene.id)`. -/
def insertFailed (l : List Nat) (e : Nat) : List Nat :=
  if e ∈ l then l else l ++ [e]

/-- The tally update after the retry loop:
`if (succeeded) successCountRef.current++ else { failCountRef.current++; failedSceneIds.add(scene.id); }`. -/
def afterRetry (succeeded : Bool) (id : Nat) (t : Tally) : Tally :=
  if succeeded then { t with succ := t.succ + 1 }
  else { t with fail := t.fail + 1, failedIds := insertFailed t.failedIds id }

/-- The constantly-false cancellation signal (a run that is never aborted). -/
def noStop : Nat → Bool := fun _ => false

/-- A cancellation signal that becomes set after the first attempt. -/
def stopAfterFirst : Nat → Bool := fun a => decide (1 ≤ a)

/-- A job function that always fails. -/
def alwaysFail : Nat → Bool := fun _ => false

/-! ### Async video-job poller

Embeds `pollVideoTask` (status normalization, url extraction, history push,
attempt cap) and the per-scene video fields it mutates, together with the
project-load cleanup/resume logic of the `init` effect. -/

/-- One status response from the remote `generate-video` status endpoint;
only the fields `pollVideoTask` reads. -/
structure PollResp where
  status : Option String
  video_url : Option String
  output_video_url : Option String
  result_url : Option String
  url : Option String
deriving DecidableEq, Repr

/-- The video-related fields of a scene that `pollVideoTask` and the load
effect read and write. History entries are kept as their url strings. -/
structure VScene where
  videoUrl : Option String
  videoStatus : Option String
  videoTaskId : Option String
  videoHistory : List String
deriving DecidableEq, Repr

/-- `status === "completed" || status === "succeeded"`. -/
def isCompletedStatus (st : Option String) : Bool :=
  st == some "completed" || st == some "succeeded"

/-- `status === "failed" || status === "error"`. -/
def isFailedStatus (st : Option String) : Bool :=
  st == some "failed" || st == some "error"

/-- `data?.video_url || data?.output?.video_url || data?.result?.url || data?.url`. -/
def extractUrl (r : PollResp) : Option String :=
  jsOrO r.video_url (jsOrO r.output_video_url (jsOrO r.result_url r.url))

/-- The scene update of the terminal-success branch: push any truthy prior
video url into the history (if not already there), store the extracted url
(which may be absent), mark the scene `completed` and clear the task id. -/
def completeUpdate (s : VScene) (r : PollResp) : VScene :=
  let hist :=
    match s.videoUrl with
    | some u =>
      if !(u == "") && !(s.videoHistory.contains u) then s.videoHistory ++ [u]
      else s.videoHistory
    | none => s.videoHistory
  { videoUrl := extractUrl r
    videoStatus := some "completed"
    videoTaskId := none
    videoHistory := hist }

/-- The scene update of the terminal-failure branch. -/
def failUpdate (s : VScene) : VScene :=
  { s with videoStatus := some "failed", videoTaskId := none }

/-- One scheduled poll either yields a status response or throws. -/
inductive PollTry where
  | ok (r : PollResp)
  | err
deriving DecidableEq, Repr

/-- `const maxAttempts = 120; // 10 min max`. -/
def pollMaxAttempts : Nat := 120

/-- The fixed reschedule interval `setTimeout(poll, 5000)`. -/
def pollIntervalMs : Nat := 5000

/-- The observable outcome of a polling run: the final scene state, how many
status checks actually ran, whether the timeout notice was shown, the
terminal outcome (`some true` = completed, `some false` = failed, `none` =
no terminal status seen), and the sequence of statuses displayed by the
checks. -/
structure PollResult where
  scene : VScene
  checks : Nat
  timeoutNotice : Bool
  terminal : Option Bool
  statusTrace : List String
deriving DecidableEq, Repr

/-- The polling loop of `pollVideoTask`, driven by the list of outcomes of
the successive scheduled polls. `attempts` is the counter value before the
next poll fires; each poll increments it, handles terminal statuses first,
otherwise displays `status || "processing"` and reschedules only while
`attempts < maxAttempts` (surfacing the timeout notice at the cap), and a
thrown error reschedules under the same cap but stops silently at it. -/
def runPollAux (s : VScene) (attempts : Nat) : List PollTry → PollResult
  | [] => ⟨s, 0, false, none, []⟩
  | t :: rest =>
    let a := attempts + 1
    match t with
    | .err =>
      if a < pollMaxAttempts then
        let r := runPollAux s a rest
        { r with checks := r.checks + 1 }
      else ⟨s, 1, false, none, []⟩
    | .ok resp =>
      if isCompletedStatus resp.status then
        ⟨completeUpdate s resp, 1, false, some true, ["completed"]⟩
      else if isFailedStatus resp.status then
        ⟨failUpdate s, 1, false, some false, ["failed"]⟩
      else
        let newSt := jsOrS resp.status "processing"
        let s1 : VScene := { s with videoStatus := some newSt }
        if a < pollMaxAttempts then
          let r := runPollAux s1 a rest
          { r with checks := r.checks + 1, statusTrace := newSt :: r.statusTrace }
        else ⟨s1, 1, true, none, [newSt]⟩

/-- A full polling run starts with the attempt counter at zero. -/
def runPoll (s : VScene) (tries : List PollTry) : PollResult :=
  runPollAux s 0 tries

/-- The scene state after a sequence of non-terminal checks: only the
displayed status changes, to `status || "processing"` of each response in
turn. -/
def afterNonterms (s : VScene) (l : List PollResp) : VScene :=
  l.foldl (fun acc r => { acc with videoStatus := some (jsOrS r.status "processing") }) s

/-- The statuses displayed by a sequence of non-terminal checks. -/
def displayStatuses (l : List PollResp) : List String :=
  l.map (fun r => jsOrS r.status "processing")

/-- Bookkeeping combinator: account `n` further checks displaying `l` in
front of a later poll result. -/
def bumpChecks (n : Nat) (l : List String) (res : PollResult) : PollResult :=
  { res with checks := res.checks + n, statusTrace := l ++ res.statusTrace }

/-! ### Project-load cleanup and resume

Embeds the `init` effect of the load path:

    const isStuck = s.videoStatus === "preparing" || s.videoStatus === "queued"
                 || s.videoStatus === "processing";
    if (isStuck && s.videoTaskId) return s;
    if (isStuck && !s.videoTaskId) return { ...s, videoStatus: undefined };
    return s;

followed by

    if (s.videoTaskId && (s.videoStatus === "queued" || s.videoStatus === "processing"))
      pollVideoTask(...);
-/

/-- The non-terminal ("stuck") statuses tested on load. -/
def isStuckStatus (st : Option String) : Bool :=
  st == some "preparing" || st == some "queued" || st == some "processing"

/-- The per-scene cleanup applied to every loaded scene. -/
def cleanScene (s : VScene) : VScene :=
  if isStuckStatus s.videoStatus then
    if truthyS s.videoTaskId then s else { s with videoStatus := none }
  else s

/-- Whether the load path restarts polling for a (cleaned) scene. -/
def shouldResume (s : VScene) : Bool :=
  truthyS s.videoTaskId &&
    (s.videoStatus == some "queued" || s.videoStatus == some "processing")

/-! ### Descriptor store and expiry sweeper

Embeds `addSbTask` / `removeSbTask` over the `generating-storyboard-tasks`
localStorage key and the 5-second cleanup interval that drops descriptors
older than `SB_TIMEOUT_MS` and deletes their ids from `generatingScenes`. -/

/-- A durable task descriptor `{ id, startedAt }`. -/
structure SbTask where
  id : Nat
  startedAt : Nat
deriving DecidableEq, Repr

/-- `const SB_TIMEOUT_MS = 240_000`. -/
def SB_TIMEOUT_MS : Nat := 240000

/-- The `setInterval(..., 5000)` sweep period. -/
def SWEEP_INTERVAL_MS : Nat := 5000

/-- The descriptors a sweep tick classifies as expired:
`now - t.startedAt >= SB_TIMEOUT_MS`. -/
def sweepExpired (tasks : List SbTask) (now : Nat) : List SbTask :=
  tasks.filter (fun t => SB_TIMEOUT_MS ≤ now - t.startedAt)

/-- The descriptors the sweep tick writes back:
`tasks.filter((t) => now - t.startedAt < SB_TIMEOUT_MS)`. -/
def sweepKept (tasks : List SbTask) (now : Nat) : List SbTask :=
  tasks.filter (fun t => now - t.startedAt < SB_TIMEOUT_MS)

/-- The `generatingScenes` indicator set after the sweep tick deleted every
expired descriptor's id (`expired.forEach((t) => ... n.delete(t.id) ...)`). -/
def sweepGen (tasks : List SbTask) (gen : List Nat) (now : Nat) : List Nat :=
  gen.filter (fun e => !((sweepExpired tasks now).any (fun t => t.id == e)))

/-! ### Scene grouping and the review pass

Embeds the grouping of `handleGenerateAllStoryboards`:

    const key = (scene.sceneName || "").trim() || `__solo_` + scene.id;
    if (!sceneGroups.has(key)) sceneGroups.set(key, []);
    sceneGroups.get(key)!.push(scene);

(a JS `Map` preserves insertion order) and the review pass:

    const missing = latestScenes.filter((s) => !s.storyboardUrl || failedSceneIds.has(s.id));
    ... regroup missing, then per group one `handleGenerateSceneStoryboard`
    call per scene, gated by `createSemaphore(2)` ...
-/

/-- The per-scene fields the batch orchestration reads. -/
structure SceneRec where
  id : Nat
  sceneName : String
  storyboardUrl : Option String
deriving DecidableEq, Repr

/-- `.trim()` on the scene name, modelled structurally over the character
list (whitespace stripped from both ends). -/
def trimStr (s : String) : String :=
  String.mk (((s.data.dropWhile Char.isWhitespace).reverse.dropWhile
    Char.isWhitespace).reverse)

/-- The grouping key of a scene:
`(scene.sceneName || "").trim() || "__solo_" + scene.id`. -/
def sceneKey (s : SceneRec) : String :=
  let t := trimStr s.sceneName
  if t = "" then "__solo_" ++ toString s.id else t

/-- Insertion-ordered addition of a scene id under its key. -/
def addToGroups (gs : List (String × List Nat)) (k : String) (e : Nat) :
    List (String × List Nat) :=
  match gs with
  | [] => [(k, [e])]
  | (k1, ids) :: rest =>
    if k1 = k then (k1, ids ++ [e]) :: rest
    else (k1, ids) :: addToGroups rest k e

/-- The insertion-ordered grouping map, as an association list. -/
def groupScenes (scenes : List SceneRec) : List (String × List Nat) :=
  scenes.foldl (fun gs s => addToGroups gs (sceneKey s) s.id) []

/-- The ordered list of groups (`Array.from(sceneGroups.values())`). -/
def groupsOf (scenes : List SceneRec) : List (List Nat) :=
  (groupScenes scenes).map (·.2)

/-- The scenes the review pass re-enqueues:
`latestScenes.filter((s) => !s.storyboardUrl || failedSceneIds.has(s.id))`. -/
def reviewMissing (scenes : List SceneRec) (failed : List Nat) : List SceneRec :=
  scenes.filter (fun s => !truthyS s.storyboardUrl || failed.contains s.id)

/-- The multiset of scene ids the review pass dispatches (one
`handleGenerateSceneStoryboard` call per listed id): skipped entirely when
cancellation was requested before the pass, otherwise one job per scene of
every review group. -/
def reviewDispatch (stop : Bool) (scenes : List SceneRec) (failed : List Nat) :
    List Nat :=
  if stop then []
  else
    let missing := reviewMissing scenes failed
    if missing.length > 0 then (groupsOf missing).flatten else []

/-! ### Pure semaphore (`createSemaphore`)

    const createSemaphore = (max) => {
      let current = 0; const queue = [];
      return {
        acquire: () => new Promise((resolve) => {
          if (current < max) { current++; resolve(); }
          else queue.push(() => { current++; resolve(); });
        }),
        release: () => { current--; if (queue.length > 0) queue.shift()!(); },
      };
    };
-/

/-- Semaphore state: the bound, the holder count and the FIFO wait queue
(waiters identified by tokens). -/
structure PureSem where
  maxc : Nat
  current : Nat
  queue : List Nat
deriving DecidableEq, Repr

/-- `acquire()` by waiter `w`: grants (incrementing `current`) when
`current < max`, otherwise appends `w` to the queue; the boolean reports
whether the acquisition resolved immediately. -/
def pAcquire (s : PureSem) (w : Nat) : PureSem × Bool :=
  if s.current < s.maxc then ({ s with current := s.current + 1 }, true)
  else ({ s with queue := s.queue ++ [w] }, false)

/-- `release()`: decrements `current`; when the queue is non-empty the
shifted head's closure immediately re-increments `current` and that waiter
resumes (returned as `some w`). -/
def pRelease (s : PureSem) : PureSem × Option Nat :=
  match s.queue with
  | [] => ({ s with current := s.current - 1 }, none)
  | w :: rest => ({ s with current := s.current - 1 + 1, queue := rest }, some w)

/-! ### The batch transition system

One lane per scene group runs `processGroup`; lanes interleave at the
`await` boundaries of the source. Phases of a lane, for its current scene:

* `beforeScene` — about to run `if (stop) return; await acquire();`
* `waiting` — parked inside the semaphore queue
* `afterAcquire` — acquire resolved, about to run the post-acquire stop
  check and enter the retry loop
* `retrying a` — at the top of retry-loop iteration `a`
* `inJob a` — attempt `a` dispatched: descriptor written, remote call
  in flight
* `done` — the lane returned
-/

/-- Lane phase. -/
inductive Phase where
  | beforeScene
  | waiting
  | afterAcquire
  | retrying (attempt : Nat)
  | inJob (attempt : Nat)
  | done
deriving DecidableEq, Repr

/-- One lane: its (immutable) ordered scene-id list, the index of the scene
it is processing, and its phase. -/
structure Lane where
  scenes : List Nat
  idx : Nat
  phase : Phase
deriving DecidableEq, Repr

/-- Durable-store events: writing / removing a scene's task descriptor
(`addSbTask` / `removeSbTask`). -/
inductive Event where
  | write (id : Nat)
  | remove (id : Nat)
deriving DecidableEq, Repr

/-- The global state of one batch run: the lanes, the inline semaphore
(`running`, `queue` and the bound 3 — kept abstract as `semMax`), the
descriptor store, the cancellation flag, the event trace and the tallies. -/
structure BatchState where
  nLanes : Nat
  lanes : Nat → Lane
  semMax : Nat
  semCur : Nat
  semQueue : List Nat
  descs : List Nat
  stop : Bool
  trace : List Event
  succCount : Nat
  failCount : Nat
  failedIds : List Nat

/-- The scene a lane is currently positioned at. -/
def curScene (L : Lane) : Option Nat := L.scenes[L.idx]?

/-- `addSbTask`: drop any stale descriptor with the same id, then append. -/
def addDesc (ds : List Nat) (e : Nat) : List Nat := ds.filter (· ≠ e) ++ [e]

/-- `removeSbTask`. -/
def removeDesc (ds : List Nat) (e : Nat) : List Nat := ds.filter (· ≠ e)

/-- Replace lane `i`. -/
def setLane (st : BatchState) (i : Nat) (L : Lane) : BatchState :=
  { st with lanes := Function.update st.lanes i L }

/-- `release()` of the inline semaphore: decrement `running`; if the queue
is non-empty its head's stored closure re-increments `running` and resolves
that lane's pending `acquire`, moving it past the await. -/
def releaseWake (st : BatchState) : BatchState :=
  match st.semQueue with
  | [] => { st with semCur := st.semCur - 1 }
  | w :: rest =>
    { st with
      semCur := st.semCur - 1 + 1
      semQueue := rest
      lanes := Function.update st.lanes w { st.lanes w with phase := .afterAcquire } }

/-- Whether a lane currently holds a semaphore slot. -/
def holder (L : Lane) : Bool :=
  match L.phase with
  | .afterAcquire | .retrying _ | .inJob _ => true
  | _ => false

/-- Whether a lane has a remote generation call in flight. -/
def inJobB (L : Lane) : Bool :=
  match L.phase with
  | .inJob _ => true
  | _ => false

/-- Whether a lane has begun attempting its current scene. -/
def started (p : Phase) : Bool :=
  match p with
  | .retrying _ | .inJob _ => true
  | _ => false

/-- The small-step relation of one batch run. `o e a` tells whether attempt
`a` of the job for scene `e` succeeds (the per-job latencies and failures
of the claims are absorbed into the nondeterministic interleaving and this
oracle). `set_stop` is the user pressing the abort button. -/
inductive Step (o : Nat → Nat → Bool) : BatchState → BatchState → Prop where
  | lane_end (st : BatchState) (i : Nat) (hi : i < st.nLanes)
      (hph : (st.lanes i).phase = .beforeScene)
      (hidx : (st.lanes i).scenes.length ≤ (st.lanes i).idx) :
      Step o st (setLane st i { st.lanes i with phase := .done })
  | stop_before (st : BatchState) (i : Nat) (hi : i < st.nLanes)
      (hph : (st.lanes i).phase = .beforeScene)
      (hidx : (st.lanes i).idx < (st.lanes i).scenes.length)
      (hstop : st.stop = true) :
      Step o st (setLane st i { st.lanes i with phase := .done })
  | acq_grant (st : BatchState) (i : Nat) (hi : i < st.nLanes)
      (hph : (st.lanes i).phase = .beforeScene)
      (hidx : (st.lanes i).idx < (st.lanes i).scenes.length)
      (hstop : st.stop = false)
      (hcur : st.semCur < st.semMax) :
      Step o st
        { setLane st i { st.lanes i with phase := .afterAcquire } with
          semCur := st.semCur + 1 }
  | acq_wait (st : BatchState) (i : Nat) (hi : i < st.nLanes)
      (hph : (st.lanes i).phase = .beforeScene)
      (hidx : (st.lanes i).idx < (st.lanes i).scenes.length)
      (hstop : st.stop = false)
      (hcur : st.semMax ≤ st.semCur) :
      Step o st
        { setLane st i { st.lanes i with phase := .waiting } with
          semQueue := st.semQueue ++ [i] }
  | stop_after_acq (st : BatchState) (i : Nat) (hi : i < st.nLanes)
      (hph : (st.lanes i).phase = .afterAcquire)
      (hstop : st.stop = true) :
      Step o st (releaseWake (setLane st i { st.lanes i with phase := .done }))
  | enter_retry (st : BatchState) (i : Nat) (hi : i < st.nLanes)
      (hph : (st.lanes i).phase = .afterAcquire)
      (hstop : st.stop = false) :
      Step o st (setLane st i { st.lanes i with phase := .retrying 0 })
  | stop_retry (st : BatchState) (i : Nat) (a e : Nat) (hi : i < st.nLanes)
      (hph : (st.lanes i).phase = .retrying a)
      (hstop : st.stop = true)
      (hcur : curScene (st.lanes i) = some e) :
      Step o st
        (releaseWake
          { setLane st i
              { st.lanes i with
                idx := (st.lanes i).idx + 1
                phase := .beforeScene } with
            failCount := st.failCount + 1
            failedIds := insertFailed st.failedIds e })
  | start_job (st : BatchState) (i : Nat) (a e : Nat) (hi : i < st.nLanes)
      (hph : (st.lanes i).phase = .retrying a)
      (hstop : st.stop = false)
      (hcur : curScene (st.lanes i) = some e) :
      Step o st
        { setLane st i { st.lanes i with phase := .inJob a } with
          descs := addDesc st.descs e
          trace := st.trace ++ [.write e] }
  | job_succ (st : BatchState) (i : Nat) (a e : Nat) (hi : i < st.nLanes)
      (hph : (st.lanes i).phase = .inJob a)
      (hcur : curScene (st.lanes i) = some e)
      (hout : o e a = true) :
      Step o st
        (releaseWake
          { setLane st i
              { st.lanes i with
                idx := (st.lanes i).idx + 1
                phase := .beforeScene } with
            descs := removeDesc st.descs e
            trace := st.trace ++ [.remove e]
            succCount := st.succCount + 1 })
  | job_fail_retry (st : BatchState) (i : Nat) (a e : Nat) (hi : i < st.nLanes)
      (hph : (st.lanes i).phase = .inJob a)
      (hcur : curScene (st.lanes i) = some e)
      (hout : o e a = false)
      (hlt : a < 2) :
      Step o st
        { setLane st i { st.lanes i with phase := .retrying (a + 1) } with
          descs := removeDesc st.descs e
          trace := st.trace ++ [.remove e] }
  | job_fail_last (st : BatchState) (i : Nat) (a e : Nat) (hi : i < st.nLanes)
      (hph : (st.lanes i).phase = .inJob a)
      (hcur : curScene (st.lanes i) = some e)
      (hout : o e a = false)
      (hge : 2 ≤ a) :
      Step o st
        (releaseWake
          { setLane st i
              { st.lanes i with
                idx := (st.lanes i).idx + 1
                phase := .beforeScene } with
            descs := removeDesc st.descs e
            trace := st.trace ++ [.remove e]
            failCount := st.failCount + 1
            failedIds := insertFailed st.failedIds e })
  | set_stop (st : BatchState) :
      Step o st { st with stop := true }

/-- The initial lanes: one per group, positioned at its first scene. -/
def initLanes (gs : List (List Nat)) : Nat → Lane :=
  fun i => ⟨gs.getD i [], 0, .beforeScene⟩

/-- The initial state of `handleGenerateAllStoryboards` with limiter bound
`N` (3 in the source): flag reset, empty queue and store. -/
def initState (scenes : List SceneRec) (N : Nat) : BatchState :=
  { nLanes := (groupsOf scenes).length
    lanes := initLanes (groupsOf scenes)
    semMax := N
    semCur := 0
    semQueue := []
    descs := []
    stop := false
    trace := []
    succCount := 0
    failCount := 0
    failedIds := [] }

/-- Reachability of a batch state. -/
def Reach (o : Nat → Nat → Bool) (scenes : List SceneRec) (N : Nat)
    (st : BatchState) : Prop :=
  Relation.ReflTransGen (Step o) (initState scenes N) st

/-- The number of lanes currently in flight (between descriptor write and
removal). -/
def inJobCount (st : BatchState) : Nat :=
  (List.range st.nLanes).countP (fun j => inJobB (st.lanes j))

/-- The number of lanes currently holding a semaphore slot. -/
def holderCount (st : BatchState) : Nat :=
  (List.range st.nLanes).countP (fun j => holder (st.lanes j))

/-- The inductive invariant of the batch transition system. Beyond the
bookkeeping equalities it states: lanes never write a descriptor for a scene
beyond their current position (`noFuture`); every scene a lane has moved
past either had its descriptor removed or was skipped under a set
cancellation flag (`prevDone`); the trace is group-sequential (`seqOK`);
the descriptor store holds exactly the scenes of lanes with a call in
flight (`descIff`); and the semaphore counter equals the number of
slot-holding lanes, bounded by the configured maximum. -/
structure Inv (scenes : List SceneRec) (N : Nat) (st : BatchState) : Prop where
  nl : st.nLanes = (groupsOf scenes).length
  smax : st.semMax = N
  lscenes : ∀ i, (st.lanes i).scenes = (groupsOf scenes).getD i []
  lact : ∀ i, ((st.lanes i).phase = .waiting ∨ holder (st.lanes i) = true) →
    (st.lanes i).idx < (st.lanes i).scenes.length
  noFuture : ∀ i q e, (st.lanes i).scenes[q]? = some e →
    ((st.lanes i).idx < q ∨ (q = (st.lanes i).idx ∧ started (st.lanes i).phase = false)) →
    Event.write e ∉ st.trace
  prevDone : ∀ i q e, q < (st.lanes i).idx → (st.lanes i).scenes[q]? = some e →
    Event.remove e ∈ st.trace ∨ st.stop = true
  seqOK : ∀ (i k : Nat) (a b : Nat), (st.lanes i).scenes[k]? = some a →
    (st.lanes i).scenes[k + 1]? = some b →
    ∀ m : Nat, st.trace[m]? = some (Event.write b) →
      ∃ j : Nat, j < m ∧ st.trace[j]? = some (Event.remove a)
  descIff : ∀ e, e ∈ st.descs ↔
    ∃ i, inJobB (st.lanes i) = true ∧ curScene (st.lanes i) = some e
  holders : holderCount st = st.semCur
  curLe : st.semCur ≤ st.semMax
  queueNodup : st.semQueue.Nodup
  queueWait : ∀ w ∈ st.semQueue, w < st.nLanes ∧ (st.lanes w).phase = .waiting

/-! ## Theorems -/

/-- Membership in the set-like insertion is guaranteed for the inserted id. -/
theorem mem_insertFailed_self (l : List Nat) (e : Nat) : e ∈ insertFailed l e := by
  unfold insertFailed
  split
  · assumption
  · simp

/-- C3: with `maxAttempts = 3` (one initial try plus two retries, `maxRetries = 2`
in the source) and no cancellation, a job failing exactly `k` times before
succeeding (`k < 3`) yields success after exactly `k + 1` invocations, and a
job that keeps failing (fails at least its first three attempts) yields
exhaustion after exactly `3` invocations and is tallied as a failed entity. -/
theorem C3_retry_executor (job : Nat → Bool) (k : Nat)
    (hfail : ∀ m, m < k → job m = false) :
    (k ≤ 2 → job k = true → retryLoop noStop job 2 = (true, k + 1)) ∧
    (3 ≤ k → retryLoop noStop job 2 = (false, 3) ∧
      ∀ t id, (afterRetry (retryLoop noStop job 2).1 id t).fail = t.fail + 1) := by
  have hr : List.range 3 = [0, 1, 2] := rfl
  constructor
  · intro hk hsucc
    interval_cases k
    · simp [retryLoop, hr, retryGo, noStop, hsucc]
    · have h0 := hfail 0 (by omega)
      simp [retryLoop, hr, retryGo, noStop, h0, hsucc]
    · have h0 := hfail 0 (by omega)
      have h1 := hfail 1 (by omega)
      simp [retryLoop, hr, retryGo, noStop, h0, h1, hsucc]
  · intro hk
    have h0 := hfail 0 (by omega)
    have h1 := hfail 1 (by omega)
    have h2 := hfail 2 (by omega)
    have heq : retryLoop noStop job 2 = (false, 3) := by
      simp [retryLoop, hr, retryGo, noStop, h0, h1, h2]
    refine ⟨heq, fun t id => ?_⟩
    rw [heq]
    simp [afterRetry]

/-- Witness for C3: a job failing once then succeeding finishes successfully
after exactly two invocations. -/
theorem C3_retry_executor_witness :
    retryLoop noStop (fun m => decide (1 ≤ m)) 2 = (true, 2) :=
  (C3_retry_executor (fun m => decide (1 ≤ m)) 1
      (by intro m hm; simp; omega)).1 (by decide) (by decide)

/-- C4 counterexample: the job fails its first attempt and the cancellation
signal is set between attempts; the loop exits after the single invocation,
but the source then runs
`else { failCountRef.current++; failedSceneIds.add(scene.id); }`, so the
interrupted entity IS counted as failed and IS added to the failed-entity
set — contradicting the claim that the exit is not counted as a failure. -/
theorem C4_counterexample :
    retryLoop stopAfterFirst alwaysFail 2 = (false, 1) ∧
    (afterRetry (retryLoop stopAfterFirst alwaysFail 2).1 7 ⟨0, 0, []⟩).fail = 1 ∧
    7 ∈ (afterRetry (retryLoop stopAfterFirst alwaysFail 2).1 7 ⟨0, 0, []⟩).failedIds := by
  decide

/-- C4 amended: if the cancellation signal becomes set at the top of
iteration `k` of the retry loop (after `k` failed attempts), the loop exits
without making further attempts, but the interrupted entity is counted as a
failure: the fail counter is incremented and the entity id joins the
failed-entity set. -/
theorem C4_cancellation_exit (stop job : Nat → Bool) (k : Nat) (hk : k ≤ 2)
    (hstop : stop k = true)
    (hpre : ∀ m, m < k → stop m = false ∧ job m = false) :
    retryLoop stop job 2 = (false, k) ∧
    ∀ t id, (afterRetry (retryLoop stop job 2).1 id t).fail = t.fail + 1 ∧
      id ∈ (afterRetry (retryLoop stop job 2).1 id t).failedIds := by
  have hr : List.range 3 = [0, 1, 2] := rfl
  have heq : retryLoop stop job 2 = (false, k) := by
    interval_cases k
    · simp [retryLoop, hr, retryGo, hstop]
    · obtain ⟨hs0, hj0⟩ := hpre 0 (by omega)
      simp [retryLoop, hr, retryGo, hs0, hj0, hstop]
    · obtain ⟨hs0, hj0⟩ := hpre 0 (by omega)
      obtain ⟨hs1, hj1⟩ := hpre 1 (by omega)
      simp [retryLoop, hr, retryGo, hs0, hj0, hs1, hj1, hstop]
  refine ⟨heq, fun t id => ?_⟩
  rw [heq]
  exact ⟨by simp [afterRetry], by simp [afterRetry, mem_insertFailed_self]⟩

/-- The non-terminal status updates leave every field but the displayed
status untouched. -/
theorem afterNonterms_fields (l : List PollResp) : ∀ s : VScene,
    (afterNonterms s l).videoUrl = s.videoUrl ∧
    (afterNonterms s l).videoTaskId = s.videoTaskId ∧
    (afterNonterms s l).videoHistory = s.videoHistory := by
  induction l with
  | nil => intro s; exact ⟨rfl, rfl, rfl⟩
  | cons r tl ih =>
    intro s
    exact ih { s with videoStatus := some (jsOrS r.status "processing") }

/-- Unfolding one non-terminal, in-budget poll check. -/
theorem runPollAux_nonterm_cons (s : VScene) (a : Nat) (r : PollResp)
    (rest : List PollTry)
    (hnc : isCompletedStatus r.status = false) (hnf : isFailedStatus r.status = false)
    (ha : a + 1 < pollMaxAttempts) :
    runPollAux s a (.ok r :: rest) =
      bumpChecks 1 [jsOrS r.status "processing"]
        (runPollAux { s with videoStatus := some (jsOrS r.status "processing") }
          (a + 1) rest) := by
  simp [runPollAux, hnc, hnf, ha, bumpChecks]

/-- A block of non-terminal, in-budget checks accumulates its length into
the check count, threads the displayed statuses, and hands the updated
scene to the continuation. -/
theorem runPollAux_app (l : List PollResp) : ∀ (s : VScene) (a : Nat)
    (rest : List PollTry),
    (∀ r ∈ l, isCompletedStatus r.status = false ∧ isFailedStatus r.status = false) →
    a + l.length < pollMaxAttempts →
    runPollAux s a (l.map .ok ++ rest) =
      bumpChecks l.length (displayStatuses l)
        (runPollAux (afterNonterms s l) (a + l.length) rest) := by
  induction l with
  | nil =>
    intro s a rest _ _
    simp [bumpChecks, afterNonterms, displayStatuses]
  | cons r tl ih =>
    intro s a rest h ha
    obtain ⟨hnc, hnf⟩ := h r (List.mem_cons_self r tl)
    have h1 : a + 1 < pollMaxAttempts := by
      simp only [List.length_cons] at ha
      omega
    rw [List.map_cons, List.cons_append,
      runPollAux_nonterm_cons s a r _ hnc hnf h1,
      ih _ (a + 1) rest (fun r2 hr2 => h r2 (List.mem_cons_of_mem _ hr2))
        (by simp only [List.length_cons] at ha; omega)]
    have hlen : a + 1 + tl.length = a + (tl.length + 1) := by omega
    simp [bumpChecks, afterNonterms, displayStatuses, hlen]
    omega

/-- The poller never performs more checks than its budget allows. -/
theorem runPollAux_checks_le (tries : List PollTry) : ∀ (s : VScene) (a : Nat),
    a < pollMaxAttempts →
    (runPollAux s a tries).checks ≤ pollMaxAttempts - a := by
  induction tries with
  | nil => intro s a _; simp [runPollAux]
  | cons t rest ih =>
    intro s a ha
    match t with
    | .err =>
      by_cases hb : a + 1 < pollMaxAttempts
      · have := ih s (a + 1) hb
        simp [runPollAux, hb]
        omega
      · simp [runPollAux, hb]
        omega
    | .ok resp =>
      by_cases hc : isCompletedStatus resp.status
      · simp [runPollAux, hc]
        omega
      · by_cases hf : isFailedStatus resp.status
        · simp [runPollAux, hc, hf]
          omega
        · by_cases hb : a + 1 < pollMaxAttempts
          · have := ih { s with
              videoStatus := some (jsOrS resp.status "processing") } (a + 1) hb
            simp [runPollAux, hc, hf, hb]
            omega
          · simp [runPollAux, hc, hf, hb]
            omega

/-- Witness for the amended C4 at a concrete interrupted run. -/
theorem C4_cancellation_exit_witness :
    retryLoop stopAfterFirst alwaysFail 2 = (false, 1) ∧
    (afterRetry (retryLoop stopAfterFirst alwaysFail 2).1 9 ⟨2, 3, [5]⟩).fail = 4 ∧
    9 ∈ (afterRetry (retryLoop stopAfterFirst alwaysFail 2).1 9 ⟨2, 3, [5]⟩).failedIds := by
  obtain ⟨h1, h2⟩ := C4_cancellation_exit stopAfterFirst alwaysFail 1 (by decide)
    (by decide) (by intro m hm; interval_cases m; exact ⟨rfl, rfl⟩)
  exact ⟨h1, (h2 ⟨2, 3, [5]⟩ 9).1, (h2 ⟨2, 3, [5]⟩ 9).2⟩

/-- A truthy prior video url always ends up in the history of the
terminal-success update. -/
theorem mem_completeUpdate_history (s : VScene) (r : PollResp) (u : String)
    (hu : s.videoUrl = some u) (hne : ¬u = "") :
    u ∈ (completeUpdate s r).videoHistory := by
  by_cases hmem : u ∈ s.videoHistory
  · simp [completeUpdate, hu, hne, hmem]
  · simp [completeUpdate, hu, hne, hmem]

/-- C6 counterexample: the remote reports the unnormalized status
`"waiting"` (displayed verbatim, breaking the
`{Preparing|Queued} -> Processing* -> terminal` shape), then reports
`"completed"` with every candidate url field absent — the poller still sets
the status to `completed` while storing NO video url, contradicting the
claim that `Completed` always carries a non-empty result payload. -/
theorem C6_counterexample :
    (runPoll ⟨some "old", some "queued", some "tid", []⟩
        [.ok ⟨some "waiting", none, none, none, none⟩,
         .ok ⟨some "completed", none, none, none, none⟩]).scene.videoStatus
        = some "completed" ∧
    (runPoll ⟨some "old", some "queued", some "tid", []⟩
        [.ok ⟨some "waiting", none, none, none, none⟩,
         .ok ⟨some "completed", none, none, none, none⟩]).scene.videoUrl = none ∧
    (runPoll ⟨some "old", some "queued", some "tid", []⟩
        [.ok ⟨some "waiting", none, none, none, none⟩,
         .ok ⟨some "completed", none, none, none, none⟩]).statusTrace
        = ["waiting", "completed"] ∧
    ("waiting" ∈ (["preparing", "queued", "processing", "completed", "failed"] :
        List String)) = False := by
  refine ⟨by decide, by decide, by decide, by decide⟩

/-- C6 amended: a polling run whose checks see non-terminal responses and
then a terminal one stops at the first terminal status (later scheduled
outcomes are ignored), displays each non-terminal provider status verbatim
(falsy normalized to `processing`); on `completed` it stores the first
truthy candidate url field as the video url — which is absent when all
candidates are falsy — moves any truthy prior url into the history and
clears the task id; on `failed` it marks the scene failed and clears the
task id; and when the provider reports only `processing`-displaying
statuses the observed sequence is exactly `processing* -> terminal`. -/
theorem C6_poller (s : VScene) (nonterms : List PollResp) (junk : List PollTry)
    (hnt : ∀ r ∈ nonterms,
      isCompletedStatus r.status = false ∧ isFailedStatus r.status = false)
    (hlen : nonterms.length + 1 ≤ pollMaxAttempts) :
    (∀ final : PollResp, isCompletedStatus final.status = true →
      runPoll s (nonterms.map .ok ++ .ok final :: junk) =
        ⟨completeUpdate (afterNonterms s nonterms) final, nonterms.length + 1,
          false, some true, displayStatuses nonterms ++ ["completed"]⟩) ∧
    (∀ final : PollResp, isCompletedStatus final.status = false →
        isFailedStatus final.status = true →
      runPoll s (nonterms.map .ok ++ .ok final :: junk) =
        ⟨failUpdate (afterNonterms s nonterms), nonterms.length + 1,
          false, some false, displayStatuses nonterms ++ ["failed"]⟩) ∧
    (∀ final : PollResp, isCompletedStatus final.status = true → ∀ u : String,
      s.videoUrl = some u → ¬u = "" →
      u ∈ (runPoll s (nonterms.map .ok ++ .ok final :: junk)).scene.videoHistory) ∧
    ((∀ r ∈ nonterms, jsOrS r.status "processing" = "processing") →
      displayStatuses nonterms = List.replicate nonterms.length "processing") := by
  have ha : 0 + nonterms.length < pollMaxAttempts := by
    simp only [Nat.zero_add]
    omega
  have hdone : ∀ final : PollResp, isCompletedStatus final.status = true →
      runPoll s (nonterms.map .ok ++ .ok final :: junk) =
        ⟨completeUpdate (afterNonterms s nonterms) final, nonterms.length + 1,
          false, some true, displayStatuses nonterms ++ ["completed"]⟩ := by
    intro final hfin
    rw [runPoll, runPollAux_app nonterms s 0 (.ok final :: junk) hnt ha]
    simp [runPollAux, hfin, bumpChecks]
    omega
  refine ⟨hdone, ?_, ?_, ?_⟩
  · intro final hfc hff
    rw [runPoll, runPollAux_app nonterms s 0 (.ok final :: junk) hnt ha]
    simp [runPollAux, hfc, hff, bumpChecks]
    omega
  · intro final hfin u hu hne
    rw [hdone final hfin]
    exact mem_completeUpdate_history _ final u
      (by rw [(afterNonterms_fields nonterms s).1, hu]) hne
  · intro hproc
    refine List.eq_replicate_iff.2 ⟨by simp [displayStatuses], fun b hb => ?_⟩
    obtain ⟨r, hr, hb2⟩ := List.mem_map.1 hb
    rw [← hb2]
    exact hproc r hr

/-- Witness for the amended C6: one processing check, then a completed
response carrying a url. -/
theorem C6_poller_witness :
    runPoll ⟨some "old", some "queued", some "tid", []⟩
        [.ok ⟨some "processing", none, none, none, none⟩,
         .ok ⟨some "completed", some "u", none, none, none⟩] =
      ⟨⟨some "u", some "completed", none, ["old"]⟩, 2, false, some true,
        ["processing", "completed"]⟩ := by
  have h := (C6_poller ⟨some "old", some "queued", some "tid", []⟩
      [⟨some "processing", none, none, none, none⟩] [] (by decide) (by decide)).1
      ⟨some "completed", some "u", none, none, none⟩ (by decide)
  simpa using h

/-- The poller processes a full block of errored checks without touching the
scene, then stops silently at the cap. -/
theorem runPollAux_all_err (k : Nat) : ∀ (s : VScene) (a : Nat) (rest : List PollTry),
    a + k = pollMaxAttempts → 1 ≤ k →
    runPollAux s a (List.replicate k .err ++ rest) = ⟨s, k, false, none, []⟩ := by
  induction k with
  | zero => intro s a rest _ hk; omega
  | succ k ih =>
    intro s a rest hak _
    rw [List.replicate_succ, List.cons_append]
    by_cases hk : 1 ≤ k
    · have hb : a + 1 < pollMaxAttempts := by omega
      rw [show runPollAux s a (.err :: (List.replicate k .err ++ rest)) =
          bumpChecks 1 [] (runPollAux s (a + 1) (List.replicate k .err ++ rest)) from by
        simp [runPollAux, hb, bumpChecks]]
      rw [ih s (a + 1) rest (by omega) hk]
      simp [bumpChecks]
    · have hk0 : k = 0 := by omega
      subst hk0
      have hb : ¬(a + 1 < pollMaxAttempts) := by omega
      simp [runPollAux, hb]

/-- C10: a thrown error during a status check is not treated as terminal:
below the cap the poller reschedules the same loop with the scene state
unchanged and the error attempt counted against the shared 120-attempt cap;
at the cap it stops silently — no timeout notice, no status change, no
clearing of the stored handle; a run of 120 consecutive errors performs
exactly 120 checks and leaves the scene exactly as it was. -/
theorem C10_poll_error_path (s : VScene) (a : Nat) (rest : List PollTry) :
    (a + 1 < pollMaxAttempts →
      runPollAux s a (.err :: rest) = bumpChecks 1 [] (runPollAux s (a + 1) rest)) ∧
    (pollMaxAttempts ≤ a + 1 →
      runPollAux s a (.err :: rest) = ⟨s, 1, false, none, []⟩) ∧
    runPoll s (List.replicate pollMaxAttempts .err ++ rest) =
      ⟨s, pollMaxAttempts, false, none, []⟩ := by
  refine ⟨fun hb => by simp [runPollAux, hb, bumpChecks], fun hb => ?_, ?_⟩
  · have hb2 : ¬(a + 1 < pollMaxAttempts) := by omega
    simp [runPollAux, hb2]
  · exact runPollAux_all_err pollMaxAttempts s 0 rest (by omega) (by decide)

/-- Witness for C10 at the cap: the 120th scheduled check throws; the run
stops silently with the scene untouched. -/
theorem C10_poll_error_path_witness :
    runPollAux ⟨none, some "processing", some "tid", []⟩ 119 [.err] =
      ⟨⟨none, some "processing", some "tid", []⟩, 1, false, none, []⟩ :=
  (C10_poll_error_path ⟨none, some "processing", some "tid", []⟩ 119 []).2.1
    (by decide)

/-- C8 counterexample: the poller reaches the 120-attempt cap on a
non-terminal status; the timeout notice is surfaced and the handle is kept,
but the capped check still writes the observed status — here the displayed
status changes from `"processing"` (state after 119 checks) to `"queued"`
(written by the 120th, capped check), contradicting the claim that the
entity state is left untouched (status not modified) at the cap. -/
theorem C8_counterexample :
    (runPoll ⟨none, some "queued", some "tid", []⟩
        (List.replicate 119 (.ok ⟨some "processing", none, none, none, none⟩))).scene.videoStatus
      = some "processing" ∧
    (runPoll ⟨none, some "queued", some "tid", []⟩
        (List.replicate 119 (.ok ⟨some "processing", none, none, none, none⟩)
          ++ [.ok ⟨some "queued", none, none, none, none⟩])).timeoutNotice = true ∧
    (runPoll ⟨none, some "queued", some "tid", []⟩
        (List.replicate 119 (.ok ⟨some "processing", none, none, none, none⟩)
          ++ [.ok ⟨some "queued", none, none, none, none⟩])).scene.videoStatus
      = some "queued" ∧
    (runPoll ⟨none, some "queued", some "tid", []⟩
        (List.replicate 119 (.ok ⟨some "processing", none, none, none, none⟩)
          ++ [.ok ⟨some "queued", none, none, none, none⟩])).scene.videoTaskId
      = some "tid" := by
  refine ⟨by decide, by decide, by decide, by decide⟩

/-- C8 amended: the poller performs at most 120 status checks at a fixed
5-second interval; when the cap is reached on non-terminal statuses it
stops, surfaces the timeout notice, leaves the stored handle untouched and
leaves the displayed status at the 120th observed non-terminal status
(`status || "processing"`), so a later resume can re-attach polling using
the persisted handle. -/
theorem C8_poll_cap (s : VScene) (l : List PollResp) (final : PollResp)
    (junk : List PollTry)
    (hl : ∀ r ∈ l, isCompletedStatus r.status = false ∧ isFailedStatus r.status = false)
    (hfc : isCompletedStatus final.status = false)
    (hff : isFailedStatus final.status = false)
    (hlen : l.length + 1 = pollMaxAttempts) :
    (∀ tries, (runPoll s tries).checks ≤ pollMaxAttempts) ∧
    runPoll s (l.map .ok ++ .ok final :: junk) =
      ⟨{ afterNonterms s l with videoStatus := some (jsOrS final.status "processing") },
        pollMaxAttempts, true, none,
        displayStatuses l ++ [jsOrS final.status "processing"]⟩ ∧
    (runPoll s (l.map .ok ++ .ok final :: junk)).scene.videoTaskId = s.videoTaskId ∧
    (truthyS s.videoTaskId = true → jsOrS final.status "processing" = "processing" →
      shouldResume (runPoll s (l.map .ok ++ .ok final :: junk)).scene = true) ∧
    pollMaxAttempts = 120 ∧ pollIntervalMs = 5000 := by
  have hcap : ∀ tries, (runPoll s tries).checks ≤ pollMaxAttempts := by
    intro tries
    have h := runPollAux_checks_le tries s 0 (by decide)
    simpa [runPoll] using h
  have ha : 0 + l.length < pollMaxAttempts := by omega
  have hmain : runPoll s (l.map .ok ++ .ok final :: junk) =
      ⟨{ afterNonterms s l with videoStatus := some (jsOrS final.status "processing") },
        pollMaxAttempts, true, none,
        displayStatuses l ++ [jsOrS final.status "processing"]⟩ := by
    rw [runPoll, runPollAux_app l s 0 (.ok final :: junk) hl ha]
    have hnb : ¬(l.length + 1 < pollMaxAttempts) := by omega
    simp [runPollAux, hfc, hff, hnb, bumpChecks]
    omega
  refine ⟨hcap, hmain, ?_, ?_, rfl, rfl⟩
  · rw [hmain]
    exact (afterNonterms_fields l s).2.1
  · intro htid hproc
    rw [hmain]
    simp [shouldResume, hproc]
    rw [(afterNonterms_fields l s).2.1]
    exact htid

/-- Witness for the amended C8: 119 processing responses then a 120th
non-terminal response hit the cap with the notice shown, the handle kept
and the scene still resumable. -/
theorem C8_poll_cap_witness :
    (runPoll ⟨none, some "queued", some "tid", []⟩
        ((List.replicate 119 (⟨some "processing", none, none, none, none⟩ : PollResp)).map .ok
          ++ .ok ⟨some "processing", none, none, none, none⟩ :: [])).timeoutNotice = true ∧
    (runPoll ⟨none, some "queued", some "tid", []⟩
        ((List.replicate 119 (⟨some "processing", none, none, none, none⟩ : PollResp)).map .ok
          ++ .ok ⟨some "processing", none, none, none, none⟩ :: [])).scene.videoTaskId
      = some "tid" ∧
    shouldResume (runPoll ⟨none, some "queued", some "tid", []⟩
        ((List.replicate 119 (⟨some "processing", none, none, none, none⟩ : PollResp)).map .ok
          ++ .ok ⟨some "processing", none, none, none, none⟩ :: [])).scene = true := by
  have h := C8_poll_cap ⟨none, some "queued", some "tid", []⟩
    (List.replicate 119 (⟨some "processing", none, none, none, none⟩ : PollResp))
    ⟨some "processing", none, none, none, none⟩ []
    (by decide) (by decide) (by decide) (by decide)
  exact ⟨by rw [h.2.1], h.2.2.1, h.2.2.2.1 (by decide) (by decide)⟩

/-- C7 counterexample: a persisted scene with the non-terminal status
`"preparing"` and a stored task id is kept as-is by the load cleanup, yet
the resume condition
`s.videoTaskId && (s.videoStatus === "queued" || s.videoStatus === "processing")`
does not restart polling for it — contradicting the claim that every
non-terminal entity with a handle resumes. -/
theorem C7_counterexample :
    isStuckStatus (some "preparing") = true ∧
    truthyS (some "tid") = true ∧
    cleanScene ⟨none, some "preparing", some "tid", []⟩ =
      ⟨none, some "preparing", some "tid", []⟩ ∧
    shouldResume (cleanScene ⟨none, some "preparing", some "tid", []⟩) = false := by
  refine ⟨by decide, by decide, by decide, by decide⟩

/-- C7 amended: on reload, a scene whose persisted status is `queued` or
`processing` and which still has a handle is kept unchanged and resumes
polling; a scene with status `preparing` and a handle is kept unchanged but
NOT resumed; a scene with a non-terminal status and no (truthy) handle has
its status reset to unset and is not resumed; every other scene is left
unchanged and not resumed. -/
theorem C7_load_resume (s : VScene) :
    ((s.videoStatus = some "queued" ∨ s.videoStatus = some "processing") →
      truthyS s.videoTaskId = true →
      cleanScene s = s ∧ shouldResume (cleanScene s) = true) ∧
    (s.videoStatus = some "preparing" → truthyS s.videoTaskId = true →
      cleanScene s = s ∧ shouldResume (cleanScene s) = false) ∧
    (isStuckStatus s.videoStatus = true → truthyS s.videoTaskId = false →
      cleanScene s = { s with videoStatus := none } ∧
      shouldResume (cleanScene s) = false) ∧
    (isStuckStatus s.videoStatus = false →
      cleanScene s = s ∧ shouldResume (cleanScene s) = false) := by
  refine ⟨?_, ?_, ?_, ?_⟩
  · intro hst htid
    have hstuck : isStuckStatus s.videoStatus = true := by
      rcases hst with h | h <;> simp [isStuckStatus, h]
    have hcl : cleanScene s = s := by simp [cleanScene, hstuck, htid]
    refine ⟨hcl, ?_⟩
    rw [hcl]
    rcases hst with h | h <;> simp [shouldResume, h, htid]
  · intro hst htid
    have hcl : cleanScene s = s := by simp [cleanScene, isStuckStatus, hst, htid]
    refine ⟨hcl, ?_⟩
    rw [hcl]
    simp [shouldResume, hst]
  · intro hstuck htid
    have hcl : cleanScene s = { s with videoStatus := none } := by
      simp [cleanScene, hstuck, htid]
    refine ⟨hcl, ?_⟩
    rw [hcl]
    simp [shouldResume]
  · intro hstuck
    have hcl : cleanScene s = s := by simp [cleanScene, hstuck]
    refine ⟨hcl, ?_⟩
    rw [hcl]
    have h1 : ¬s.videoStatus = some "queued" := by
      intro h
      rw [h] at hstuck
      simp [isStuckStatus] at hstuck
    have h2 : ¬s.videoStatus = some "processing" := by
      intro h
      rw [h] at hstuck
      simp [isStuckStatus] at hstuck
    simp [shouldResume, h1, h2]

/-- Witness for the amended C7: a queued scene with a handle survives the
cleanup and resumes. -/
theorem C7_load_resume_witness :
    cleanScene ⟨none, some "queued", some "tid", []⟩ =
      ⟨none, some "queued", some "tid", []⟩ ∧
    shouldResume (cleanScene ⟨none, some "queued", some "tid", []⟩) = true :=
  (C7_load_resume ⟨none, some "queued", some "tid", []⟩).1 (Or.inl rfl) (by decide)

/-- C9: every descriptor whose age has reached `SB_TIMEOUT_MS` (240 s) is
removed by the sweep tick (which runs every `SWEEP_INTERVAL_MS` = 5 s) and
its id is deleted from the `generatingScenes` in-progress indicator set,
with no terminal event required. -/
theorem C9_expiry_sweep (tasks : List SbTask) (gen : List Nat) (now : Nat)
    (t : SbTask) (ht : t ∈ tasks) (hexp : SB_TIMEOUT_MS ≤ now - t.startedAt) :
    t ∉ sweepKept tasks now ∧
    t.id ∉ sweepGen tasks gen now ∧
    SB_TIMEOUT_MS = 240000 ∧ SWEEP_INTERVAL_MS = 5000 := by
  refine ⟨?_, ?_, rfl, rfl⟩
  · intro hmem
    have := (List.mem_filter.1 hmem).2
    simp at this
    omega
  · intro hmem
    have h2 := (List.mem_filter.1 hmem).2
    have hexp2 : t ∈ sweepExpired tasks now := by
      refine List.mem_filter.2 ⟨ht, ?_⟩
      simpa using hexp
    have hany : (sweepExpired tasks now).any (fun u => u.id == t.id) = true := by
      refine List.any_eq_true.2 ⟨t, hexp2, ?_⟩
      simp
    rw [hany] at h2
    simp at h2

/-- Witness for C9 at a concrete expired descriptor. -/
theorem C9_expiry_sweep_witness :
    (⟨5, 1000⟩ : SbTask) ∉ sweepKept [⟨5, 1000⟩, ⟨6, 500000⟩] 600000 ∧
    5 ∉ sweepGen [⟨5, 1000⟩, ⟨6, 500000⟩] [5, 6] 600000 ∧
    SB_TIMEOUT_MS = 240000 ∧ SWEEP_INTERVAL_MS = 5000 :=
  C9_expiry_sweep [⟨5, 1000⟩, ⟨6, 500000⟩] [5, 6] 600000 ⟨5, 1000⟩
    (by decide) (by decide)

/-- Adding one id into the insertion-ordered grouping permutes the flattened
id multiset by appending that id. -/
theorem flatten_addToGroups (k : String) (e : Nat) : ∀ gs : List (String × List Nat),
    List.Perm ((addToGroups gs k e).map (·.2)).flatten
      (((gs.map (·.2)).flatten) ++ [e]) := by
  intro gs
  induction gs with
  | nil => simp [addToGroups]
  | cons p rest ih =>
    obtain ⟨k1, ids⟩ := p
    by_cases hk : k1 = k
    · simp only [addToGroups, hk, if_pos, List.map_cons, List.flatten_cons]
      rw [List.append_assoc, List.append_assoc]
      exact List.Perm.append_left ids List.perm_append_comm
    · simp only [addToGroups, hk, if_neg, List.map_cons, List.flatten_cons,
        not_false_iff]
      rw [List.append_assoc]
      exact List.Perm.append_left ids ih

/-- Folding the grouping step over a scene list appends the scene ids, up to
permutation, to the flattened accumulator. -/
theorem flatten_groupFold (l : List SceneRec) : ∀ gs : List (String × List Nat),
    List.Perm
      (((l.foldl (fun g s => addToGroups g (sceneKey s) s.id) gs).map (·.2)).flatten)
      (((gs.map (·.2)).flatten) ++ l.map (·.id)) := by
  induction l with
  | nil => intro gs; simp
  | cons s tl ih =>
    intro gs
    have h1 := ih (addToGroups gs (sceneKey s) s.id)
    have h2 : List.Perm ((((addToGroups gs (sceneKey s) s.id).map (·.2)).flatten)
        ++ tl.map (·.id))
        ((((gs.map (·.2)).flatten) ++ [s.id]) ++ tl.map (·.id)) :=
      List.Perm.append_right _ (flatten_addToGroups (sceneKey s) s.id gs)
    refine (h1.trans h2).trans ?_
    rw [List.append_assoc]
    simp

/-- The flattened groups carry exactly the ids of the grouped scenes. -/
theorem groupsOf_flatten_perm (scenes : List SceneRec) :
    List.Perm (groupsOf scenes).flatten (scenes.map (·.id)) := by
  have h := flatten_groupFold scenes []
  simpa [groupsOf, groupScenes] using h

/-- C5 counterexample: one scene that HAS a storyboard (from an earlier run)
but whose batch attempts failed: the claim demands exactly `M = 0` review
jobs (no scene is missing its storyboard), yet the review-pass filter
`!s.storyboardUrl || failedSceneIds.has(s.id)` dispatches 1 job. -/
theorem C5_counterexample :
    (List.filter (fun s => !truthyS s.storyboardUrl)
        [(⟨0, "", some "u"⟩ : SceneRec)]).length = 0 ∧
    (reviewDispatch false [(⟨0, "", some "u"⟩ : SceneRec)] [0]).length = 1 := by
  refine ⟨by decide, by decide⟩

/-- C5 amended: with cancellation not requested, the review pass dispatches
exactly one job per entity that is missing its storyboard OR is recorded in
the failed set (so exactly `M` jobs whenever every failed entity also lacks
a storyboard), each such entity exactly once and never recursively — the
dispatch list is fixed by one scan — and the pass dispatches nothing when
cancellation was requested before it starts. -/
theorem C5_review_pass (scenes : List SceneRec) (failed : List Nat)
    (hnodup : (scenes.map (·.id)).Nodup) :
    (∀ e, (reviewDispatch false scenes failed).count e =
      ((reviewMissing scenes failed).map (·.id)).count e) ∧
    (∀ e ∈ reviewDispatch false scenes failed,
      (reviewDispatch false scenes failed).count e = 1) ∧
    ((∀ s ∈ scenes, s.id ∈ failed → truthyS s.storyboardUrl = false) →
      (reviewDispatch false scenes failed).length =
        (scenes.filter (fun s => !truthyS s.storyboardUrl)).length) ∧
    reviewDispatch true scenes failed = [] := by
  have hperm : List.Perm (reviewDispatch false scenes failed)
      ((reviewMissing scenes failed).map (·.id)) := by
    unfold reviewDispatch
    by_cases hpos : (reviewMissing scenes failed).length > 0
    · simp only [if_neg Bool.false_ne_true, if_pos hpos]
      exact groupsOf_flatten_perm (reviewMissing scenes failed)
    · have : reviewMissing scenes failed = [] := by
        cases h : reviewMissing scenes failed with
        | nil => rfl
        | cons a tl => rw [h] at hpos; simp at hpos
      simp [this]
  have hmnodup : ((reviewMissing scenes failed).map (·.id)).Nodup := by
    refine List.Nodup.sublist ?_ hnodup
    exact List.Sublist.map _ (List.filter_sublist scenes)
  refine ⟨fun e => hperm.count_eq e, ?_, ?_, rfl⟩
  · intro e he
    rw [hperm.count_eq e]
    exact List.count_eq_one_of_mem hmnodup (hperm.mem_iff.1 he)
  · intro hfa
    have hfe : reviewMissing scenes failed =
        scenes.filter (fun s => !truthyS s.storyboardUrl) := by
      unfold reviewMissing
      refine List.filter_congr ?_
      intro s hs
      by_cases hmem : s.id ∈ failed
      · have hcont : failed.contains s.id = true := by
          simpa using hmem
        simp [hcont, hfa s hs hmem]
      · have hcont : failed.contains s.id = false := by
          simpa using hmem
        simp [hcont]
        intro h
        exact absurd h hmem
    rw [hperm.length_eq, hfe, List.length_map]

/-- Witness for the amended C5: two scenes, one missing its storyboard, one
complete: exactly one job is dispatched, for the missing scene, once. -/
theorem C5_review_pass_witness :
    (reviewDispatch false
        [(⟨0, "A", none⟩ : SceneRec), ⟨1, "A", some "u"⟩] []).count 0 =
      ((reviewMissing [(⟨0, "A", none⟩ : SceneRec), ⟨1, "A", some "u"⟩] []).map
        (·.id)).count 0 ∧
    (reviewDispatch false
        [(⟨0, "A", none⟩ : SceneRec), ⟨1, "A", some "u"⟩] []).length = 1 := by
  have h := C5_review_pass [(⟨0, "A", none⟩ : SceneRec), ⟨1, "A", some "u"⟩] []
    (by decide)
  refine ⟨h.1 0, ?_⟩
  rw [h.2.2.1 (by intro s hs hmem; simp at hmem)]
  decide

/-- Each group list is duplicate-free when the scene ids are. -/
theorem groups_nodup_each (scenes : List SceneRec)
    (hnodup : (scenes.map (·.id)).Nodup) :
    ∀ i, ((groupsOf scenes).getD i []).Nodup := by
  intro i
  have hfl : (groupsOf scenes).flatten.Nodup :=
    ((groupsOf_flatten_perm scenes).nodup_iff).2 hnodup
  have h1 := (List.nodup_flatten.1 hfl).1
  by_cases hi : i < (groupsOf scenes).length
  · rw [List.getD_eq_getElem _ _ hi]
    exact h1 _ (List.getElem_mem hi)
  · rw [List.getD_eq_default _ _ (by omega)]
    exact List.nodup_nil

/-- Scene ids of different groups never coincide when the scene ids are
duplicate-free. -/
theorem groups_disjoint (scenes : List SceneRec)
    (hnodup : (scenes.map (·.id)).Nodup) :
    ∀ i j, i ≠ j → ∀ e, e ∈ (groupsOf scenes).getD i [] →
      e ∈ (groupsOf scenes).getD j [] → False := by
  have hfl : (groupsOf scenes).flatten.Nodup :=
    ((groupsOf_flatten_perm scenes).nodup_iff).2 hnodup
  have hget := List.pairwise_iff_getElem.1 (List.nodup_flatten.1 hfl).2
  intro i j hij e hei hej
  by_cases hi : i < (groupsOf scenes).length
  · by_cases hj : j < (groupsOf scenes).length
    · rw [List.getD_eq_getElem _ _ hi] at hei
      rw [List.getD_eq_getElem _ _ hj] at hej
      rcases Nat.lt_or_ge i j with h | h
      · exact hget i j hi hj h hei hej
      · have hji : j < i := by omega
        exact hget j i hj hi hji hej hei
    · rw [List.getD_eq_default _ _ (by omega)] at hej
      simp at hej
  · rw [List.getD_eq_default _ _ (by omega)] at hei
    simp at hei

/-- Updating one index shifts a range count by swapping that index's
contribution. -/
theorem countP_update_add (f : Nat → Lane) (i : Nat) (L : Lane) (p : Lane → Bool) :
    ∀ n, i < n →
    (List.range n).countP (fun j => p (Function.update f i L j))
        + (if p (f i) then 1 else 0)
      = (List.range n).countP (fun j => p (f j)) + (if p L then 1 else 0) := by
  intro n
  induction n with
  | zero => intro h; omega
  | succ n ih =>
    intro hin
    rw [List.range_succ, List.countP_append, List.countP_append]
    by_cases hi : i < n
    · have hne : n ≠ i := by omega
      have he : p (Function.update f i L n) = p (f n) := by
        rw [Function.update_noteq hne]
      have hih := ih hi
      simp only [List.countP_cons, List.countP_nil, he]
      omega
    · have hieq : i = n := by omega
      subst hieq
      have hcong : (List.range i).countP (fun j => p (Function.update f i L j)) =
          (List.range i).countP (fun j => p (f j)) := by
        refine List.countP_congr ?_
        intro j hj
        have hji : j ≠ i := by
          have := List.mem_range.1 hj
          omega
        rw [Function.update_noteq hji]
      rw [hcong]
      simp only [List.countP_cons, List.countP_nil, Function.update_same]
      omega

/-- A slot-holding lane makes the holder count positive. -/
theorem holderCount_pos (st : BatchState) (i : Nat) (hi : i < st.nLanes)
    (h : holder (st.lanes i) = true) : 0 < holderCount st :=
  List.countP_pos_iff.2 ⟨i, List.mem_range.2 hi, h⟩

/-- Membership in the descriptor store after `addSbTask`. -/
theorem mem_addDesc (ds : List Nat) (e x : Nat) :
    x ∈ addDesc ds e ↔ (x ∈ ds ∧ x ≠ e) ∨ x = e := by
  simp only [addDesc, List.mem_append, List.mem_filter, List.mem_singleton,
    decide_eq_true_eq]

/-- Membership in the descriptor store after `removeSbTask`. -/
theorem mem_removeDesc (ds : List Nat) (e x : Nat) :
    x ∈ removeDesc ds e ↔ x ∈ ds ∧ x ≠ e := by
  simp only [removeDesc, List.mem_filter, decide_eq_true_eq]

/-- A write event survives (in the negative) appending a different event. -/
theorem notMem_append_single (tr : List Event) (x evt : Event)
    (h1 : x ∉ tr) (h2 : ¬x = evt) : x ∉ tr ++ [evt] := by
  simp [h1, h2]

/-- Extending a trace by one event preserves the remove-before-write
discipline, provided the new event, if it is the guarded write, already has
its guard present. -/
theorem seq_extend (tr : List Event) (evt : Event) (a b : Nat)
    (h : ∀ m : Nat, tr[m]? = some (Event.write b) →
      ∃ j : Nat, j < m ∧ tr[j]? = some (Event.remove a))
    (hevt : evt = Event.write b → Event.remove a ∈ tr) :
    ∀ m : Nat, (tr ++ [evt])[m]? = some (Event.write b) →
      ∃ j : Nat, j < m ∧ (tr ++ [evt])[j]? = some (Event.remove a) := by
  intro m hm
  rcases Nat.lt_trichotomy m tr.length with hlt | heq | hgt
  · rw [List.getElem?_append, if_pos hlt] at hm
    obtain ⟨j, hj, hj2⟩ := h m hm
    refine ⟨j, hj, ?_⟩
    rw [List.getElem?_append, if_pos (by omega)]
    exact hj2
  · subst heq
    rw [List.getElem?_concat_length] at hm
    have hevt2 : evt = Event.write b := by
      injection hm
    have hmem := hevt hevt2
    obtain ⟨j, hj⟩ := List.mem_iff_getElem?.1 hmem
    have hjl : j < tr.length := by
      obtain ⟨hb, _⟩ := List.getElem?_eq_some.1 hj
      exact hb
    refine ⟨j, hjl, ?_⟩
    rw [List.getElem?_append, if_pos hjl]
    exact hj
  · have hlen : (tr ++ [evt]).length ≤ m := by
      simp only [List.length_append, List.length_singleton]
      omega
    rw [List.getElem?_eq_none hlen] at hm
    cases hm

/-- Fields of the state that `release()` never touches. -/
theorem releaseWake_parts (st1 : BatchState) :
    (releaseWake st1).nLanes = st1.nLanes ∧
    (releaseWake st1).semMax = st1.semMax ∧
    (releaseWake st1).descs = st1.descs ∧
    (releaseWake st1).stop = st1.stop ∧
    (releaseWake st1).trace = st1.trace ∧
    (releaseWake st1).failedIds = st1.failedIds := by
  rcases hq : st1.semQueue with _ | ⟨w, rest⟩ <;>
    simp [releaseWake, hq]

/-- `release()` either just decrements the counter (empty queue) or pops the
queue head, waking exactly that lane into the acquired phase. -/
theorem releaseWake_lanes (st1 : BatchState) :
    (st1.semQueue = [] ∧ (releaseWake st1).lanes = st1.lanes ∧
      (releaseWake st1).semCur = st1.semCur - 1 ∧
      (releaseWake st1).semQueue = []) ∨
    (∃ w rest, st1.semQueue = w :: rest ∧
      (releaseWake st1).lanes =
        Function.update st1.lanes w { st1.lanes w with phase := .afterAcquire } ∧
      (releaseWake st1).semCur = st1.semCur - 1 + 1 ∧
      (releaseWake st1).semQueue = rest) := by
  rcases hq : st1.semQueue with _ | ⟨w, rest⟩
  · exact Or.inl ⟨rfl, by simp [releaseWake, hq], by simp [releaseWake, hq],
      by simp [releaseWake, hq]⟩
  · exact Or.inr ⟨w, rest, rfl, by simp [releaseWake, hq], by simp [releaseWake, hq],
      by simp [releaseWake, hq]⟩

/-- The semaphore bundle of the invariant survives a finishing lane's
`release()`. -/
theorem sem_after_release (st st1 : BatchState) (i : Nat) (L2 : Lane)
    (hl : st1.lanes = Function.update st.lanes i L2)
    (hq : st1.semQueue = st.semQueue) (hc : st1.semCur = st.semCur)
    (hn : st1.nLanes = st.nLanes) (hm : st1.semMax = st.semMax)
    (hi : i < st.nLanes) (hold : holder (st.lanes i) = true)
    (h2a : holder L2 = false)
    (holders0 : holderCount st = st.semCur) (curLe0 : st.semCur ≤ st.semMax)
    (qn0 : st.semQueue.Nodup)
    (qw0 : ∀ w ∈ st.semQueue, w < st.nLanes ∧ (st.lanes w).phase = .waiting) :
    holderCount (releaseWake st1) = (releaseWake st1).semCur ∧
    (releaseWake st1).semCur ≤ (releaseWake st1).semMax ∧
    (releaseWake st1).semQueue.Nodup ∧
    (∀ w ∈ (releaseWake st1).semQueue, w < (releaseWake st1).nLanes ∧
      ((releaseWake st1).lanes w).phase = .waiting) := by
  have hpos : 0 < st.semCur := by
    rw [← holders0]
    exact holderCount_pos st i hi hold
  have hcount1 : (List.range st.nLanes).countP (fun j => holder (st1.lanes j)) + 1
      = st.semCur := by
    have h := countP_update_add st.lanes i L2 holder st.nLanes hi
    rw [hold, h2a] at h
    simp at h
    unfold holderCount at holders0
    rw [hl]
    omega
  obtain ⟨hpn, hpm, _, _, _, _⟩ := releaseWake_parts st1
  rcases releaseWake_lanes st1 with ⟨hq0, hlan, hcur, hque⟩ | ⟨w, rest, hq1, hlan, hcur, hque⟩
  · refine ⟨?_, ?_, ?_, ?_⟩
    · unfold holderCount
      rw [hpn, hlan, hn, hcur, hc]
      omega
    · rw [hcur, hpm, hc, hm]
      omega
    · rw [hque]
      exact List.nodup_nil
    · intro w hw
      rw [hque] at hw
      cases hw
  · have hwq : w ∈ st.semQueue := by
      rw [← hq, hq1]
      exact List.mem_cons_self w rest
    obtain ⟨hwn, hwph⟩ := qw0 w hwq
    have hwi : w ≠ i := by
      intro hcontra
      rw [hcontra] at hwph
      unfold holder at hold
      rw [hwph] at hold
      simp at hold
    have hw1 : st1.lanes w = st.lanes w := by
      rw [hl, Function.update_noteq hwi]
    refine ⟨?_, ?_, ?_, ?_⟩
    · unfold holderCount
      rw [hpn, hlan, hn, hcur, hc]
      have h2 := countP_update_add st1.lanes w { st1.lanes w with phase := .afterAcquire }
        holder st.nLanes (by omega)
      have hwh : holder (st1.lanes w) = false := by
        rw [hw1]
        unfold holder
        rw [hwph]
      have hwh2 : holder { st1.lanes w with phase := Phase.afterAcquire } = true := by
        unfold holder
        rfl
      rw [hwh, hwh2] at h2
      simp at h2 ⊢
      omega
    · rw [hcur, hpm, hc, hm]
      omega
    · rw [hque]
      have : (w :: rest).Nodup := by
        rw [← hq1, hq]
        exact qn0
      exact (List.nodup_cons.1 this).2
    · intro w2 hw2
      rw [hque] at hw2
      have hw2q : w2 ∈ st.semQueue := by
        rw [← hq, hq1]
        exact List.mem_cons_of_mem w hw2
      obtain ⟨hw2n, hw2ph⟩ := qw0 w2 hw2q
      have hw2w : w2 ≠ w := by
        intro hcontra
        have : (w :: rest).Nodup := by
          rw [← hq1, hq]
          exact qn0
        rw [hcontra] at hw2
        exact (List.nodup_cons.1 this).1 hw2
      have hw2i : w2 ≠ i := by
        intro hcontra
        rw [hcontra] at hw2ph
        unfold holder at hold
        rw [hw2ph] at hold
        simp at hold
      refine ⟨by rw [hpn, hn]; exact hw2n, ?_⟩
      rw [hlan, Function.update_noteq hw2w, hl, Function.update_noteq hw2i]
      exact hw2ph

/-- Invariant preservation for steps that only change one lane's phase
(lane return, post-acquire transitions), leaving the store, trace and
semaphore untouched. -/
theorem Inv_phase_only (scenes : List SceneRec) (N : Nat) (st : BatchState)
    (hInv : Inv scenes N st) (i : Nat) (hi : i < st.nLanes) (pnew : Phase)
    (hhold : holder { st.lanes i with phase := pnew } = holder (st.lanes i))
    (hjob_new : inJobB { st.lanes i with phase := pnew } = false)
    (hjob_old : inJobB (st.lanes i) = false)
    (hact : (pnew = .waiting ∨ holder { st.lanes i with phase := pnew } = true) →
      (st.lanes i).idx < (st.lanes i).scenes.length)
    (hst : started pnew = false → started (st.lanes i).phase = false)
    (hnw : ¬(st.lanes i).phase = .waiting) :
    Inv scenes N (setLane st i { st.lanes i with phase := pnew }) := by
  obtain ⟨nl, smax, lscenes, lact, noFuture, prevDone, seqOK, descIff, holders,
    curLe, qn, qw⟩ := hInv
  refine ⟨nl, smax, ?_, ?_, ?_, ?_, ?_, ?_, ?_, curLe, qn, ?_⟩
  · intro j
    simp only [setLane]
    by_cases hj : j = i
    · subst hj
      rw [Function.update_same]
      exact lscenes j
    · rw [Function.update_noteq hj]
      exact lscenes j
  · intro j hj2
    simp only [setLane] at hj2 ⊢
    by_cases hj : j = i
    · subst hj
      rw [Function.update_same] at hj2 ⊢
      exact hact hj2
    · rw [Function.update_noteq hj] at hj2 ⊢
      exact lact j hj2
  · intro j q e hq hcond
    simp only [setLane] at hq hcond ⊢
    by_cases hj : j = i
    · subst hj
      rw [Function.update_same] at hq hcond
      refine noFuture j q e hq ?_
      rcases hcond with h | ⟨h1, h2⟩
      · exact Or.inl h
      · exact Or.inr ⟨h1, hst h2⟩
    · rw [Function.update_noteq hj] at hq hcond
      exact noFuture j q e hq hcond
  · intro j q e hqlt hq
    simp only [setLane] at hqlt hq ⊢
    by_cases hj : j = i
    · subst hj
      rw [Function.update_same] at hqlt hq
      exact prevDone j q e hqlt hq
    · rw [Function.update_noteq hj] at hqlt hq
      exact prevDone j q e hqlt hq
  · intro j k a b hk hk1
    simp only [setLane] at hk hk1 ⊢
    by_cases hj : j = i
    · subst hj
      rw [Function.update_same] at hk hk1
      exact seqOK j k a b hk hk1
    · rw [Function.update_noteq hj] at hk hk1
      exact seqOK j k a b hk hk1
  · intro e
    simp only [setLane]
    rw [descIff e]
    constructor
    · rintro ⟨j, hj1, hj2⟩
      refine ⟨j, ?_, ?_⟩
      · by_cases hj : j = i
        · subst hj
          rw [hj1] at hjob_old
          cases hjob_old
        · rw [Function.update_noteq hj]
          exact hj1
      · by_cases hj : j = i
        · subst hj
          rw [hj1] at hjob_old
          cases hjob_old
        · rw [Function.update_noteq hj]
          exact hj2
    · rintro ⟨j, hj1, hj2⟩
      by_cases hj : j = i
      · subst hj
        rw [Function.update_same] at hj1
        rw [hj1] at hjob_new
        cases hjob_new
      · rw [Function.update_noteq hj] at hj1 hj2
        exact ⟨j, hj1, hj2⟩
  · unfold holderCount at holders ⊢
    simp only [setLane]
    have h := countP_update_add st.lanes i { st.lanes i with phase := pnew }
      holder st.nLanes hi
    rw [hhold] at h
    simp only [] at h ⊢
    simp at h ⊢
    omega
  · intro w hw
    simp only [setLane] at hw ⊢
    obtain ⟨hwn, hwph⟩ := qw w hw
    have hwi : ¬w = i := by
      intro hcontra
      rw [hcontra] at hwph
      exact hnw hwph
    rw [Function.update_noteq hwi]
    exact ⟨hwn, hwph⟩

/-- Invariant preservation for an immediately-granted `acquire()`. -/
theorem Inv_acq_grant (scenes : List SceneRec) (N : Nat) (st : BatchState)
    (hInv : Inv scenes N st) (i : Nat) (hi : i < st.nLanes)
    (hph : (st.lanes i).phase = .beforeScene)
    (hidx : (st.lanes i).idx < (st.lanes i).scenes.length)
    (hcur : st.semCur < st.semMax) :
    Inv scenes N
      { setLane st i { st.lanes i with phase := .afterAcquire } with
        semCur := st.semCur + 1 } := by
  obtain ⟨nl, smax, lscenes, lact, noFuture, prevDone, seqOK, descIff, holders,
    curLe, qn, qw⟩ := hInv
  have hnw : ¬(st.lanes i).phase = Phase.waiting := by
    rw [hph]
    intro h
    cases h
  have hhold_old : holder (st.lanes i) = false := by
    unfold holder
    rw [hph]
  refine ⟨nl, smax, ?_, ?_, ?_, ?_, ?_, ?_, ?_, ?_, qn, ?_⟩
  · intro j
    simp only [setLane]
    by_cases hj : j = i
    · subst hj
      rw [Function.update_same]
      exact lscenes j
    · rw [Function.update_noteq hj]
      exact lscenes j
  · intro j hj2
    simp only [setLane] at hj2 ⊢
    by_cases hj : j = i
    · subst hj
      rw [Function.update_same] at hj2 ⊢
      exact hidx
    · rw [Function.update_noteq hj] at hj2 ⊢
      exact lact j hj2
  · intro j q e hq hcond
    simp only [setLane] at hq hcond ⊢
    by_cases hj : j = i
    · subst hj
      rw [Function.update_same] at hq hcond
      refine noFuture j q e hq ?_
      rcases hcond with h | ⟨h1, h2⟩
      · exact Or.inl h
      · refine Or.inr ⟨h1, ?_⟩
        unfold started
        rw [hph]
    · rw [Function.update_noteq hj] at hq hcond
      exact noFuture j q e hq hcond
  · intro j q e hqlt hq
    simp only [setLane] at hqlt hq ⊢
    by_cases hj : j = i
    · subst hj
      rw [Function.update_same] at hqlt hq
      exact prevDone j q e hqlt hq
    · rw [Function.update_noteq hj] at hqlt hq
      exact prevDone j q e hqlt hq
  · intro j k a b hk hk1
    simp only [setLane] at hk hk1 ⊢
    by_cases hj : j = i
    · subst hj
      rw [Function.update_same] at hk hk1
      exact seqOK j k a b hk hk1
    · rw [Function.update_noteq hj] at hk hk1
      exact seqOK j k a b hk hk1
  · intro e
    simp only [setLane]
    rw [descIff e]
    constructor
    · rintro ⟨j, hj1, hj2⟩
      by_cases hj : j = i
      · subst hj
        unfold inJobB at hj1
        rw [hph] at hj1
        cases hj1
      · exact ⟨j, by rw [Function.update_noteq hj]; exact hj1,
          by rw [Function.update_noteq hj]; exact hj2⟩
    · rintro ⟨j, hj1, hj2⟩
      by_cases hj : j = i
      · subst hj
        rw [Function.update_same] at hj1
        unfold inJobB at hj1
        simp at hj1
      · rw [Function.update_noteq hj] at hj1 hj2
        exact ⟨j, hj1, hj2⟩
  · unfold holderCount at holders ⊢
    simp only [setLane]
    have h := countP_update_add st.lanes i { st.lanes i with phase := .afterAcquire }
      holder st.nLanes hi
    rw [hhold_old] at h
    have hhn : holder { st.lanes i with phase := Phase.afterAcquire } = true := by
      unfold holder
      rfl
    rw [hhn] at h
    simp at h ⊢
    omega
  · show st.semCur + 1 ≤ st.semMax
    omega
  · intro w hw
    simp only [setLane] at hw ⊢
    obtain ⟨hwn, hwph⟩ := qw w hw
    have hwi : ¬w = i := by
      intro hcontra
      rw [hcontra] at hwph
      exact hnw hwph
    rw [Function.update_noteq hwi]
    exact ⟨hwn, hwph⟩

/-- Invariant preservation for an `acquire()` that parks the lane in the
FIFO queue. -/
theorem Inv_acq_wait (scenes : List SceneRec) (N : Nat) (st : BatchState)
    (hInv : Inv scenes N st) (i : Nat) (hi : i < st.nLanes)
    (hph : (st.lanes i).phase = .beforeScene)
    (hidx : (st.lanes i).idx < (st.lanes i).scenes.length) :
    Inv scenes N
      { setLane st i { st.lanes i with phase := .waiting } with
        semQueue := st.semQueue ++ [i] } := by
  obtain ⟨nl, smax, lscenes, lact, noFuture, prevDone, seqOK, descIff, holders,
    curLe, qn, qw⟩ := hInv
  have hnw : ¬(st.lanes i).phase = Phase.waiting := by
    rw [hph]
    intro h
    cases h
  have hiq : i ∉ st.semQueue := by
    intro hmem
    exact hnw (qw i hmem).2
  refine ⟨nl, smax, ?_, ?_, ?_, ?_, ?_, ?_, ?_, curLe, ?_, ?_⟩
  · intro j
    simp only [setLane]
    by_cases hj : j = i
    · subst hj
      rw [Function.update_same]
      exact lscenes j
    · rw [Function.update_noteq hj]
      exact lscenes j
  · intro j hj2
    simp only [setLane] at hj2 ⊢
    by_cases hj : j = i
    · subst hj
      rw [Function.update_same] at hj2 ⊢
      exact hidx
    · rw [Function.update_noteq hj] at hj2 ⊢
      exact lact j hj2
  · intro j q e hq hcond
    simp only [setLane] at hq hcond ⊢
    by_cases hj : j = i
    · subst hj
      rw [Function.update_same] at hq hcond
      refine noFuture j q e hq ?_
      rcases hcond with h | ⟨h1, h2⟩
      · exact Or.inl h
      · refine Or.inr ⟨h1, ?_⟩
        unfold started
        rw [hph]
    · rw [Function.update_noteq hj] at hq hcond
      exact noFuture j q e hq hcond
  · intro j q e hqlt hq
    simp only [setLane] at hqlt hq ⊢
    by_cases hj : j = i
    · subst hj
      rw [Function.update_same] at hqlt hq
      exact prevDone j q e hqlt hq
    · rw [Function.update_noteq hj] at hqlt hq
      exact prevDone j q e hqlt hq
  · intro j k a b hk hk1
    simp only [setLane] at hk hk1 ⊢
    by_cases hj : j = i
    · subst hj
      rw [Function.update_same] at hk hk1
      exact seqOK j k a b hk hk1
    · rw [Function.update_noteq hj] at hk hk1
      exact seqOK j k a b hk hk1
  · intro e
    simp only [setLane]
    rw [descIff e]
    constructor
    · rintro ⟨j, hj1, hj2⟩
      by_cases hj : j = i
      · subst hj
        unfold inJobB at hj1
        rw [hph] at hj1
        cases hj1
      · exact ⟨j, by rw [Function.update_noteq hj]; exact hj1,
          by rw [Function.update_noteq hj]; exact hj2⟩
    · rintro ⟨j, hj1, hj2⟩
      by_cases hj : j = i
      · subst hj
        rw [Function.update_same] at hj1
        unfold inJobB at hj1
        simp at hj1
      · rw [Function.update_noteq hj] at hj1 hj2
        exact ⟨j, hj1, hj2⟩
  · unfold holderCount at holders ⊢
    simp only [setLane]
    have h := countP_update_add st.lanes i { st.lanes i with phase := .waiting }
      holder st.nLanes hi
    have hhold_old : holder (st.lanes i) = false := by
      unfold holder
      rw [hph]
    have hhn : holder { st.lanes i with phase := Phase.waiting } = false := by
      unfold holder
      rfl
    rw [hhold_old, hhn] at h
    simp at h ⊢
    omega
  · show (st.semQueue ++ [i]).Nodup
    rw [List.nodup_append]
    refine ⟨qn, List.nodup_singleton i, ?_⟩
    intro x hx hx2
    rw [List.mem_singleton] at hx2
    subst hx2
    exact hiq hx
  · intro w hw
    have hw2 : w ∈ st.semQueue ++ [i] := hw
    rw [List.mem_append, List.mem_singleton] at hw2
    simp only [setLane]
    rcases hw2 with hwq | hwi
    · obtain ⟨hwn, hwph⟩ := qw w hwq
      have hwi2 : ¬w = i := by
        intro hcontra
        rw [hcontra] at hwph
        exact hnw hwph
      rw [Function.update_noteq hwi2]
      exact ⟨hwn, hwph⟩
    · subst hwi
      rw [Function.update_same]
      exact ⟨hi, rfl⟩

/-- Invariant preservation for dispatching one attempt: the stop check has
passed, the descriptor is written and the remote call begins. -/
theorem Inv_start_job (scenes : List SceneRec) (N : Nat) (st : BatchState)
    (hnodup : (scenes.map (·.id)).Nodup)
    (hInv : Inv scenes N st) (i : Nat) (a e : Nat) (hi : i < st.nLanes)
    (hph : (st.lanes i).phase = .retrying a)
    (hstop : st.stop = false)
    (hcur : curScene (st.lanes i) = some e) :
    Inv scenes N
      { setLane st i { st.lanes i with phase := .inJob a } with
        descs := addDesc st.descs e
        trace := st.trace ++ [.write e] } := by
  obtain ⟨nl, smax, lscenes, lact, noFuture, prevDone, seqOK, descIff, holders,
    curLe, qn, qw⟩ := hInv
  unfold curScene at hcur
  have hnlane : ∀ j, (st.lanes j).scenes.Nodup := by
    intro j
    rw [lscenes j]
    exact groups_nodup_each scenes hnodup j
  have hdisjL : ∀ j k, ¬j = k → ∀ x, x ∈ (st.lanes j).scenes →
      x ∈ (st.lanes k).scenes → False := by
    intro j k hjk x h1 h2
    rw [lscenes j] at h1
    rw [lscenes k] at h2
    exact groups_disjoint scenes hnodup j k hjk x h1 h2
  have hmem_e : e ∈ (st.lanes i).scenes := List.getElem?_mem hcur
  have hidxlt : (st.lanes i).idx < (st.lanes i).scenes.length :=
    (List.getElem?_eq_some.1 hcur).1
  have hnw : ¬(st.lanes i).phase = Phase.waiting := by
    rw [hph]
    intro h
    cases h
  refine ⟨nl, smax, ?_, ?_, ?_, ?_, ?_, ?_, ?_, curLe, qn, ?_⟩
  · intro j
    simp only [setLane]
    by_cases hj : j = i
    · subst hj
      rw [Function.update_same]
      exact lscenes j
    · rw [Function.update_noteq hj]
      exact lscenes j
  · intro j hj2
    simp only [setLane] at hj2 ⊢
    by_cases hj : j = i
    · subst hj
      rw [Function.update_same] at hj2 ⊢
      exact hidxlt
    · rw [Function.update_noteq hj] at hj2 ⊢
      exact lact j hj2
  · intro j q e2 hq hcond
    simp only [setLane] at hq hcond ⊢
    by_cases hj : j = i
    · subst hj
      rw [Function.update_same] at hq hcond
      have hqgt : (st.lanes j).idx < q := by
        rcases hcond with h | ⟨h1, h2⟩
        · exact h
        · exfalso
          unfold started at h2
          simp at h2
      have hold : Event.write e2 ∉ st.trace := by
        refine noFuture j q e2 hq (Or.inl hqgt)
      refine notMem_append_single st.trace _ _ hold ?_
      intro hcontra
      have he2 : e2 = e := by
        injection hcontra
      subst he2
      have hqlen : q < (st.lanes j).scenes.length :=
        (List.getElem?_eq_some.1 hq).1
      have : q = (st.lanes j).idx :=
        List.getElem?_inj hqlen (hnlane j) (by rw [hq, hcur])
      omega
    · rw [Function.update_noteq hj] at hq hcond
      have hold : Event.write e2 ∉ st.trace := noFuture j q e2 hq hcond
      refine notMem_append_single st.trace _ _ hold ?_
      intro hcontra
      have he2 : e2 = e := by
        injection hcontra
      subst he2
      exact hdisjL j i hj e2 (List.getElem?_mem hq) hmem_e
  · intro j q e2 hqlt hq
    simp only [setLane] at hqlt hq ⊢
    by_cases hj : j = i
    · subst hj
      rw [Function.update_same] at hqlt hq
      rcases prevDone j q e2 hqlt hq with h | h
      · exact Or.inl (List.mem_append_left _ h)
      · exact Or.inr h
    · rw [Function.update_noteq hj] at hqlt hq
      rcases prevDone j q e2 hqlt hq with h | h
      · exact Or.inl (List.mem_append_left _ h)
      · exact Or.inr h
  · intro j k a2 b2 hk hk1
    simp only [setLane] at hk hk1 ⊢
    have hscn : (Function.update st.lanes i { st.lanes i with phase := Phase.inJob a } j).scenes
        = (st.lanes j).scenes := by
      by_cases hj : j = i
      · subst hj
        rw [Function.update_same]
      · rw [Function.update_noteq hj]
    rw [hscn] at hk hk1
    refine seq_extend st.trace _ a2 b2 (seqOK j k a2 b2 hk hk1) ?_
    intro hevt
    have hbe : e = b2 := by
      injection hevt
    subst hbe
    have hji : j = i := by
      by_contra hj
      exact hdisjL j i hj e (List.getElem?_mem hk1) hmem_e
    subst hji
    have hk1len : k + 1 < (st.lanes j).scenes.length :=
      (List.getElem?_eq_some.1 hk1).1
    have hkidx : k + 1 = (st.lanes j).idx :=
      List.getElem?_inj hk1len (hnlane j) (by rw [hk1, hcur])
    have hklt : k < (st.lanes j).idx := by omega
    rcases prevDone j k a2 hklt hk with h | h
    · exact h
    · rw [hstop] at h
      cases h
  · intro x
    simp only [setLane]
    rw [mem_addDesc]
    constructor
    · rintro (⟨hxd, hxe⟩ | hxe)
      · obtain ⟨j, hj1, hj2⟩ := (descIff x).1 hxd
        have hji : ¬j = i := by
          intro hcontra
          subst hcontra
          unfold inJobB at hj1
          rw [hph] at hj1
          cases hj1
        exact ⟨j, by rw [Function.update_noteq hji]; exact hj1,
          by rw [Function.update_noteq hji]; exact hj2⟩
      · subst hxe
        refine ⟨i, ?_, ?_⟩
        · rw [Function.update_same]
          rfl
        · rw [Function.update_same]
          unfold curScene
          exact hcur
    · rintro ⟨j, hj1, hj2⟩
      by_cases hj : j = i
      · subst hj
        rw [Function.update_same] at hj2
        unfold curScene at hj2
        right
        have : some e = some x := by
          rw [← hcur, ← hj2]
        injection this
        omega
      · rw [Function.update_noteq hj] at hj1 hj2
        left
        refine ⟨(descIff x).2 ⟨j, hj1, hj2⟩, ?_⟩
        intro hcontra
        subst hcontra
        unfold curScene at hj2
        exact hdisjL j i hj x (List.getElem?_mem hj2) hmem_e
  · unfold holderCount at holders ⊢
    simp only [setLane]
    have h := countP_update_add st.lanes i { st.lanes i with phase := .inJob a }
      holder st.nLanes hi
    have h1 : holder (st.lanes i) = true := by
      unfold holder
      rw [hph]
    have h2 : holder { st.lanes i with phase := Phase.inJob a } = true := by
      unfold holder
      rfl
    rw [h1, h2] at h
    simp at h ⊢
    omega
  · intro w hw
    simp only [setLane] at hw ⊢
    obtain ⟨hwn, hwph⟩ := qw w hw
    have hwi : ¬w = i := by
      intro hcontra
      rw [hcontra] at hwph
      exact hnw hwph
    rw [Function.update_noteq hwi]
    exact ⟨hwn, hwph⟩

/-- Invariant preservation for a terminal attempt of the current scene: the
descriptor is removed, the trace records the removal, the lane advances to
its next scene and releases its slot (possibly waking the queue head). The
tallies of the finishing state `st1` are unconstrained, covering both the
success and the exhaustion outcome. -/
theorem Inv_finish_remove_release (scenes : List SceneRec) (N : Nat)
    (st st1 : BatchState) (hnodup : (scenes.map (·.id)).Nodup)
    (hInv : Inv scenes N st) (i : Nat) (a e : Nat) (hi : i < st.nLanes)
    (hph : (st.lanes i).phase = .inJob a)
    (hcur : curScene (st.lanes i) = some e)
    (hl : st1.lanes = Function.update st.lanes i
      { st.lanes i with idx := (st.lanes i).idx + 1, phase := .beforeScene })
    (hd : st1.descs = removeDesc st.descs e)
    (ht : st1.trace = st.trace ++ [.remove e])
    (hs : st1.stop = st.stop)
    (hn : st1.nLanes = st.nLanes) (hm : st1.semMax = st.semMax)
    (hc : st1.semCur = st.semCur) (hq : st1.semQueue = st.semQueue) :
    Inv scenes N (releaseWake st1) := by
  obtain ⟨nl, smax, lscenes, lact, noFuture, prevDone, seqOK, descIff, holders,
    curLe, qn, qw⟩ := hInv
  unfold curScene at hcur
  have hnlane : ∀ j, (st.lanes j).scenes.Nodup := by
    intro j
    rw [lscenes j]
    exact groups_nodup_each scenes hnodup j
  have hdisjL : ∀ j k, ¬j = k → ∀ x, x ∈ (st.lanes j).scenes →
      x ∈ (st.lanes k).scenes → False := by
    intro j k hjk x h1 h2
    rw [lscenes j] at h1
    rw [lscenes k] at h2
    exact groups_disjoint scenes hnodup j k hjk x h1 h2
  have hmem_e : e ∈ (st.lanes i).scenes := List.getElem?_mem hcur
  have hold1 : holder (st.lanes i) = true := by
    unfold holder
    rw [hph]
  have hsem := sem_after_release st st1 i
    { st.lanes i with idx := (st.lanes i).idx + 1, phase := .beforeScene }
    hl hq hc hn hm hi hold1 (by unfold holder; rfl)
    holders curLe qn qw
  obtain ⟨hgn, hgm, hgd, hgs, hgt, hgf⟩ := releaseWake_parts st1
  -- a uniform pointwise description of the final lane map
  have hshape : ∀ j, (¬j = i → (releaseWake st1).lanes j = st.lanes j ∨
        ((st.lanes j).phase = .waiting ∧
          (releaseWake st1).lanes j = { st.lanes j with phase := .afterAcquire })) ∧
      (j = i → (releaseWake st1).lanes j =
        { st.lanes i with idx := (st.lanes i).idx + 1, phase := .beforeScene }) := by
    intro j
    rcases releaseWake_lanes st1 with ⟨hq0, hlan, _, _⟩ | ⟨w, rest, hq1, hlan, _, _⟩
    · constructor
      · intro hj
        rw [hlan, hl, Function.update_noteq hj]
        exact Or.inl rfl
      · intro hj
        subst hj
        rw [hlan, hl, Function.update_same]
    · have hwq : w ∈ st.semQueue := by
        rw [← hq, hq1]
        exact List.mem_cons_self w rest
      obtain ⟨hwn, hwph⟩ := qw w hwq
      have hwi : ¬w = i := by
        intro hcontra
        rw [hcontra] at hwph
        unfold holder at hold1
        rw [hwph] at hold1
        simp at hold1
      have hw1 : st1.lanes w = st.lanes w := by
        rw [hl, Function.update_noteq hwi]
      constructor
      · intro hj
        by_cases hjw : j = w
        · subst hjw
          rw [hlan, Function.update_same, hw1]
          exact Or.inr ⟨hwph, rfl⟩
        · rw [hlan, Function.update_noteq hjw, hl, Function.update_noteq hj]
          exact Or.inl rfl
      · intro hj
        have hjw : ¬j = w := by
          intro hc
          rw [hj] at hc
          exact hwi hc.symm
        rw [hlan, Function.update_noteq hjw, hl, hj, Function.update_same]
  refine ⟨by rw [hgn, hn, nl], by rw [hgm, hm, smax], ?_, ?_, ?_, ?_, ?_, ?_,
    hsem.1, hsem.2.1, hsem.2.2.1, hsem.2.2.2⟩
  · -- lscenes
    intro j
    by_cases hj : j = i
    · subst hj
      rw [(hshape j).2 rfl]
      exact lscenes j
    · rcases (hshape j).1 hj with h2 | ⟨_, h2⟩ <;> rw [h2] <;> exact lscenes j
  · -- lact
    intro j hj2
    by_cases hj : j = i
    · subst hj
      rw [(hshape j).2 rfl] at hj2
      exfalso
      rcases hj2 with h | h
      · simp at h
      · unfold holder at h
        simp at h
    · rcases (hshape j).1 hj with h2 | ⟨hwph, h2⟩
      · rw [h2] at hj2 ⊢
        exact lact j hj2
      · rw [h2] at hj2 ⊢
        exact lact j (Or.inl hwph)
  · -- noFuture
    intro j q e2 hq2 hcond
    rw [hgt, ht]
    by_cases hj : j = i
    · subst hj
      rw [(hshape j).2 rfl] at hq2 hcond
      have hqgt : (st.lanes j).idx < q := by
        rcases hcond with h | ⟨h1, _⟩
        · simp at h
          omega
        · simp at h1
          omega
      have holdm : Event.write e2 ∉ st.trace :=
        noFuture j q e2 hq2 (Or.inl hqgt)
      refine notMem_append_single _ _ _ holdm ?_
      intro hcontra
      have he2 : e2 = e := by injection hcontra
      subst he2
      have hqlen : q < (st.lanes j).scenes.length := (List.getElem?_eq_some.1 hq2).1
      have : q = (st.lanes j).idx :=
        List.getElem?_inj hqlen (hnlane j) (by rw [hq2, hcur])
      omega
    · have hcond2 : (st.lanes j).idx < q ∨
          (q = (st.lanes j).idx ∧ started (st.lanes j).phase = false) := by
        rcases (hshape j).1 hj with h2 | ⟨hwph, h2⟩
        · rw [h2] at hcond
          exact hcond
        · rw [h2] at hcond
          rcases hcond with h | ⟨h1, _⟩
          · exact Or.inl h
          · refine Or.inr ⟨h1, ?_⟩
            unfold started
            rw [hwph]
      have hq3 : (st.lanes j).scenes[q]? = some e2 := by
        rcases (hshape j).1 hj with h2 | ⟨_, h2⟩ <;> rw [h2] at hq2 <;> exact hq2
      have holdm : Event.write e2 ∉ st.trace := noFuture j q e2 hq3 hcond2
      refine notMem_append_single _ _ _ holdm ?_
      intro hcontra
      have he2 : e2 = e := by injection hcontra
      subst he2
      exact hdisjL j i hj e2 (List.getElem?_mem hq3) hmem_e
  · -- prevDone
    intro j q e2 hqlt hq2
    rw [hgt, ht, hgs, hs]
    by_cases hj : j = i
    · subst hj
      rw [(hshape j).2 rfl] at hqlt hq2
      simp at hqlt
      by_cases hqi : q = (st.lanes j).idx
      · subst hqi
        have : e2 = e := by
          have := hq2.symm.trans hcur
          injection this
        subst this
        exact Or.inl (List.mem_append_right _ (List.mem_singleton.2 rfl))
      · have hqlt2 : q < (st.lanes j).idx := by omega
        rcases prevDone j q e2 hqlt2 hq2 with h | h
        · exact Or.inl (List.mem_append_left _ h)
        · exact Or.inr h
    · have hq3 : (st.lanes j).scenes[q]? = some e2 := by
        rcases (hshape j).1 hj with h2 | ⟨_, h2⟩ <;> rw [h2] at hq2 <;> exact hq2
      have hqlt2 : q < (st.lanes j).idx := by
        rcases (hshape j).1 hj with h2 | ⟨_, h2⟩ <;> rw [h2] at hqlt <;> exact hqlt
      rcases prevDone j q e2 hqlt2 hq3 with h | h
      · exact Or.inl (List.mem_append_left _ h)
      · exact Or.inr h
  · -- seqOK
    intro j k a2 b2 hk hk1
    rw [hgt, ht]
    have hk2 : (st.lanes j).scenes[k]? = some a2 := by
      by_cases hj : j = i
      · subst hj
        rw [(hshape j).2 rfl] at hk
        exact hk
      · rcases (hshape j).1 hj with h2 | ⟨_, h2⟩ <;> rw [h2] at hk <;> exact hk
    have hk12 : (st.lanes j).scenes[k + 1]? = some b2 := by
      by_cases hj : j = i
      · subst hj
        rw [(hshape j).2 rfl] at hk1
        exact hk1
      · rcases (hshape j).1 hj with h2 | ⟨_, h2⟩ <;> rw [h2] at hk1 <;> exact hk1
    refine seq_extend st.trace _ a2 b2 (seqOK j k a2 b2 hk2 hk12) ?_
    intro hevt
    exact Event.noConfusion hevt
  · -- descIff
    intro x
    rw [hgd, hd, mem_removeDesc]
    constructor
    · rintro ⟨hxd, hxe⟩
      obtain ⟨j, hj1, hj2⟩ := (descIff x).1 hxd
      have hji : ¬j = i := by
        intro hcontra
        subst hcontra
        unfold curScene at hj2
        have : e = x := by
          have := hcur.symm.trans hj2
          injection this
        exact hxe this.symm
      refine ⟨j, ?_, ?_⟩
      · rcases (hshape j).1 hji with h2 | ⟨hwph, h2⟩
        · rw [h2]
          exact hj1
        · exfalso
          unfold inJobB at hj1
          rw [hwph] at hj1
          cases hj1
      · rcases (hshape j).1 hji with h2 | ⟨hwph, h2⟩
        · rw [h2]
          exact hj2
        · exfalso
          unfold inJobB at hj1
          rw [hwph] at hj1
          cases hj1
    · rintro ⟨j, hj1, hj2⟩
      by_cases hj : j = i
      · subst hj
        rw [(hshape j).2 rfl] at hj1
        unfold inJobB at hj1
        simp at hj1
      · have hj1b : inJobB (st.lanes j) = true := by
          rcases (hshape j).1 hj with h2 | ⟨hwph, h2⟩
          · rw [h2] at hj1
            exact hj1
          · rw [h2] at hj1
            unfold inJobB at hj1
            simp at hj1
        have hj2b : curScene (st.lanes j) = some x := by
          rcases (hshape j).1 hj with h2 | ⟨hwph, h2⟩
          · rw [h2] at hj2
            exact hj2
          · exfalso
            rcases (hshape j).1 hj with h3 | ⟨hwph2, h3⟩
            · rw [h3] at hj1
              unfold inJobB at hj1
              rw [hwph] at hj1
              cases hj1
            · rw [h3] at hj1
              unfold inJobB at hj1
              simp at hj1
        refine ⟨(descIff x).2 ⟨j, hj1b, hj2b⟩, ?_⟩
        intro hcontra
        subst hcontra
        unfold curScene at hj2b
        exact hdisjL j i hj x (List.getElem?_mem hj2b) hmem_e

/-- Invariant preservation for a failed, non-final attempt: the descriptor
is removed and the lane loops to the next retry iteration without
releasing its slot. -/
theorem Inv_job_fail_retry (scenes : List SceneRec) (N : Nat) (st : BatchState)
    (hnodup : (scenes.map (·.id)).Nodup)
    (hInv : Inv scenes N st) (i : Nat) (a e : Nat) (hi : i < st.nLanes)
    (hph : (st.lanes i).phase = .inJob a)
    (hcur : curScene (st.lanes i) = some e) :
    Inv scenes N
      { setLane st i { st.lanes i with phase := .retrying (a + 1) } with
        descs := removeDesc st.descs e
        trace := st.trace ++ [.remove e] } := by
  obtain ⟨nl, smax, lscenes, lact, noFuture, prevDone, seqOK, descIff, holders,
    curLe, qn, qw⟩ := hInv
  unfold curScene at hcur
  have hnlane : ∀ j, (st.lanes j).scenes.Nodup := by
    intro j
    rw [lscenes j]
    exact groups_nodup_each scenes hnodup j
  have hdisjL : ∀ j k, ¬j = k → ∀ x, x ∈ (st.lanes j).scenes →
      x ∈ (st.lanes k).scenes → False := by
    intro j k hjk x h1 h2
    rw [lscenes j] at h1
    rw [lscenes k] at h2
    exact groups_disjoint scenes hnodup j k hjk x h1 h2
  have hmem_e : e ∈ (st.lanes i).scenes := List.getElem?_mem hcur
  have hidxlt : (st.lanes i).idx < (st.lanes i).scenes.length :=
    (List.getElem?_eq_some.1 hcur).1
  have hnw : ¬(st.lanes i).phase = Phase.waiting := by
    rw [hph]
    intro h
    cases h
  refine ⟨nl, smax, ?_, ?_, ?_, ?_, ?_, ?_, ?_, curLe, qn, ?_⟩
  · intro j
    simp only [setLane]
    by_cases hj : j = i
    · subst hj
      rw [Function.update_same]
      exact lscenes j
    · rw [Function.update_noteq hj]
      exact lscenes j
  · intro j hj2
    simp only [setLane] at hj2 ⊢
    by_cases hj : j = i
    · subst hj
      rw [Function.update_same] at hj2 ⊢
      exact hidxlt
    · rw [Function.update_noteq hj] at hj2 ⊢
      exact lact j hj2
  · intro j q e2 hq hcond
    simp only [setLane] at hq hcond ⊢
    have hnever : Event.write e2 ∉ st.trace := by
      by_cases hj : j = i
      · subst hj
        rw [Function.update_same] at hq hcond
        refine noFuture j q e2 hq (Or.inl ?_)
        rcases hcond with h | ⟨h1, h2⟩
        · exact h
        · exfalso
          unfold started at h2
          simp at h2
      · rw [Function.update_noteq hj] at hq hcond
        exact noFuture j q e2 hq hcond
    refine notMem_append_single _ _ _ hnever ?_
    intro hcontra
    exact Event.noConfusion hcontra
  · intro j q e2 hqlt hq
    simp only [setLane] at hqlt hq ⊢
    by_cases hj : j = i
    · subst hj
      rw [Function.update_same] at hqlt hq
      rcases prevDone j q e2 hqlt hq with h | h
      · exact Or.inl (List.mem_append_left _ h)
      · exact Or.inr h
    · rw [Function.update_noteq hj] at hqlt hq
      rcases prevDone j q e2 hqlt hq with h | h
      · exact Or.inl (List.mem_append_left _ h)
      · exact Or.inr h
  · intro j k a2 b2 hk hk1
    simp only [setLane] at hk hk1 ⊢
    have hk2 : (st.lanes j).scenes[k]? = some a2 := by
      by_cases hj : j = i
      · subst hj
        rw [Function.update_same] at hk
        exact hk
      · rw [Function.update_noteq hj] at hk
        exact hk
    have hk12 : (st.lanes j).scenes[k + 1]? = some b2 := by
      by_cases hj : j = i
      · subst hj
        rw [Function.update_same] at hk1
        exact hk1
      · rw [Function.update_noteq hj] at hk1
        exact hk1
    refine seq_extend st.trace _ a2 b2 (seqOK j k a2 b2 hk2 hk12) ?_
    intro hevt
    exact Event.noConfusion hevt
  · intro x
    simp only [setLane]
    rw [mem_removeDesc]
    constructor
    · rintro ⟨hxd, hxe⟩
      obtain ⟨j, hj1, hj2⟩ := (descIff x).1 hxd
      have hji : ¬j = i := by
        intro hcontra
        subst hcontra
        unfold curScene at hj2
        have : e = x := by
          have := hcur.symm.trans hj2
          injection this
        exact hxe this.symm
      exact ⟨j, by rw [Function.update_noteq hji]; exact hj1,
        by rw [Function.update_noteq hji]; exact hj2⟩
    · rintro ⟨j, hj1, hj2⟩
      by_cases hj : j = i
      · subst hj
        rw [Function.update_same] at hj1
        unfold inJobB at hj1
        simp at hj1
      · rw [Function.update_noteq hj] at hj1 hj2
        refine ⟨(descIff x).2 ⟨j, hj1, hj2⟩, ?_⟩
        intro hcontra
        subst hcontra
        unfold curScene at hj2
        exact hdisjL j i hj x (List.getElem?_mem hj2) hmem_e
  · unfold holderCount at holders ⊢
    simp only [setLane]
    have h := countP_update_add st.lanes i { st.lanes i with phase := .retrying (a + 1) }
      holder st.nLanes hi
    have h1 : holder (st.lanes i) = true := by
      unfold holder
      rw [hph]
    have h2 : holder { st.lanes i with phase := Phase.retrying (a + 1) } = true := by
      unfold holder
      rfl
    rw [h1, h2] at h
    simp at h ⊢
    omega
  · intro w hw
    simp only [setLane] at hw ⊢
    obtain ⟨hwn, hwph⟩ := qw w hw
    have hwi : ¬w = i := by
      intro hcontra
      rw [hcontra] at hwph
      exact hnw hwph
    rw [Function.update_noteq hwi]
    exact ⟨hwn, hwph⟩

/-- Invariant preservation for a cancellation exit from the retry loop: the
lane breaks out with the flag set, is tallied as failed, advances and
releases its slot. -/
theorem Inv_stop_retry_release (scenes : List SceneRec) (N : Nat)
    (st st1 : BatchState)
    (hInv : Inv scenes N st) (i : Nat) (a : Nat) (hi : i < st.nLanes)
    (hph : (st.lanes i).phase = .retrying a)
    (hstop : st.stop = true)
    (hl : st1.lanes = Function.update st.lanes i
      { st.lanes i with idx := (st.lanes i).idx + 1, phase := .beforeScene })
    (hd : st1.descs = st.descs)
    (ht : st1.trace = st.trace)
    (hs : st1.stop = st.stop)
    (hn : st1.nLanes = st.nLanes) (hm : st1.semMax = st.semMax)
    (hc : st1.semCur = st.semCur) (hq : st1.semQueue = st.semQueue) :
    Inv scenes N (releaseWake st1) := by
  obtain ⟨nl, smax, lscenes, lact, noFuture, prevDone, seqOK, descIff, holders,
    curLe, qn, qw⟩ := hInv
  have hold1 : holder (st.lanes i) = true := by
    unfold holder
    rw [hph]
  have hsem := sem_after_release st st1 i
    { st.lanes i with idx := (st.lanes i).idx + 1, phase := .beforeScene }
    hl hq hc hn hm hi hold1 (by unfold holder; rfl)
    holders curLe qn qw
  obtain ⟨hgn, hgm, hgd, hgs, hgt, hgf⟩ := releaseWake_parts st1
  have hshape : ∀ j, (¬j = i → (releaseWake st1).lanes j = st.lanes j ∨
        ((st.lanes j).phase = .waiting ∧
          (releaseWake st1).lanes j = { st.lanes j with phase := .afterAcquire })) ∧
      (j = i → (releaseWake st1).lanes j =
        { st.lanes i with idx := (st.lanes i).idx + 1, phase := .beforeScene }) := by
    intro j
    rcases releaseWake_lanes st1 with ⟨hq0, hlan, _, _⟩ | ⟨w, rest, hq1, hlan, _, _⟩
    · constructor
      · intro hj
        rw [hlan, hl, Function.update_noteq hj]
        exact Or.inl rfl
      · intro hj
        subst hj
        rw [hlan, hl, Function.update_same]
    · have hwq : w ∈ st.semQueue := by
        rw [← hq, hq1]
        exact List.mem_cons_self w rest
      obtain ⟨hwn, hwph⟩ := qw w hwq
      have hwi : ¬w = i := by
        intro hcontra
        rw [hcontra] at hwph
        unfold holder at hold1
        rw [hwph] at hold1
        simp at hold1
      have hw1 : st1.lanes w = st.lanes w := by
        rw [hl, Function.update_noteq hwi]
      constructor
      · intro hj
        by_cases hjw : j = w
        · subst hjw
          rw [hlan, Function.update_same, hw1]
          exact Or.inr ⟨hwph, rfl⟩
        · rw [hlan, Function.update_noteq hjw, hl, Function.update_noteq hj]
          exact Or.inl rfl
      · intro hj
        have hjw : ¬j = w := by
          intro hc
          rw [hj] at hc
          exact hwi hc.symm
        rw [hlan, Function.update_noteq hjw, hl, hj, Function.update_same]
  refine ⟨by rw [hgn, hn, nl], by rw [hgm, hm, smax], ?_, ?_, ?_, ?_, ?_, ?_,
    hsem.1, hsem.2.1, hsem.2.2.1, hsem.2.2.2⟩
  · intro j
    by_cases hj : j = i
    · subst hj
      rw [(hshape j).2 rfl]
      exact lscenes j
    · rcases (hshape j).1 hj with h2 | ⟨_, h2⟩ <;> rw [h2] <;> exact lscenes j
  · intro j hj2
    by_cases hj : j = i
    · subst hj
      rw [(hshape j).2 rfl] at hj2
      exfalso
      rcases hj2 with h | h
      · simp at h
      · unfold holder at h
        simp at h
    · rcases (hshape j).1 hj with h2 | ⟨hwph, h2⟩
      · rw [h2] at hj2 ⊢
        exact lact j hj2
      · rw [h2] at hj2 ⊢
        exact lact j (Or.inl hwph)
  · intro j q e2 hq2 hcond
    rw [hgt, ht]
    by_cases hj : j = i
    · subst hj
      rw [(hshape j).2 rfl] at hq2 hcond
      refine noFuture j q e2 hq2 (Or.inl ?_)
      rcases hcond with h | ⟨h1, _⟩
      · simp at h
        omega
      · simp at h1
        omega
    · have hcond2 : (st.lanes j).idx < q ∨
          (q = (st.lanes j).idx ∧ started (st.lanes j).phase = false) := by
        rcases (hshape j).1 hj with h2 | ⟨hwph, h2⟩
        · rw [h2] at hcond
          exact hcond
        · rw [h2] at hcond
          rcases hcond with h | ⟨h1, _⟩
          · exact Or.inl h
          · refine Or.inr ⟨h1, ?_⟩
            unfold started
            rw [hwph]
      have hq3 : (st.lanes j).scenes[q]? = some e2 := by
        rcases (hshape j).1 hj with h2 | ⟨_, h2⟩ <;> rw [h2] at hq2 <;> exact hq2
      exact noFuture j q e2 hq3 hcond2
  · intro j q e2 hqlt hq2
    rw [hgt, ht, hgs, hs]
    by_cases hj : j = i
    · subst hj
      rw [(hshape j).2 rfl] at hqlt hq2
      simp at hqlt
      by_cases hqi : q = (st.lanes j).idx
      · exact Or.inr hstop
      · have hqlt2 : q < (st.lanes j).idx := by omega
        exact prevDone j q e2 hqlt2 hq2
    · have hq3 : (st.lanes j).scenes[q]? = some e2 := by
        rcases (hshape j).1 hj with h2 | ⟨_, h2⟩ <;> rw [h2] at hq2 <;> exact hq2
      have hqlt2 : q < (st.lanes j).idx := by
        rcases (hshape j).1 hj with h2 | ⟨_, h2⟩ <;> rw [h2] at hqlt <;> exact hqlt
      exact prevDone j q e2 hqlt2 hq3
  · intro j k a2 b2 hk hk1
    rw [hgt, ht]
    have hk2 : (st.lanes j).scenes[k]? = some a2 := by
      by_cases hj : j = i
      · subst hj
        rw [(hshape j).2 rfl] at hk
        exact hk
      · rcases (hshape j).1 hj with h2 | ⟨_, h2⟩ <;> rw [h2] at hk <;> exact hk
    have hk12 : (st.lanes j).scenes[k + 1]? = some b2 := by
      by_cases hj : j = i
      · subst hj
        rw [(hshape j).2 rfl] at hk1
        exact hk1
      · rcases (hshape j).1 hj with h2 | ⟨_, h2⟩ <;> rw [h2] at hk1 <;> exact hk1
    exact seqOK j k a2 b2 hk2 hk12
  · intro x
    rw [hgd, hd]
    rw [descIff x]
    constructor
    · rintro ⟨j, hj1, hj2⟩
      have hji : ¬j = i := by
        intro hcontra
        subst hcontra
        unfold inJobB at hj1
        rw [hph] at hj1
        cases hj1
      rcases (hshape j).1 hji with h2 | ⟨hwph, h2⟩
      · exact ⟨j, by rw [h2]; exact hj1, by rw [h2]; exact hj2⟩
      · exfalso
        unfold inJobB at hj1
        rw [hwph] at hj1
        cases hj1
    · rintro ⟨j, hj1, hj2⟩
      by_cases hj : j = i
      · subst hj
        rw [(hshape j).2 rfl] at hj1
        unfold inJobB at hj1
        simp at hj1
      · rcases (hshape j).1 hj with h2 | ⟨hwph, h2⟩
        · rw [h2] at hj1 hj2
          exact ⟨j, hj1, hj2⟩
        · rw [h2] at hj1
          unfold inJobB at hj1
          simp at hj1

/-- Invariant preservation for a cancellation observed right after an
acquire resolved: the lane releases the slot and returns. -/
theorem Inv_stop_after_acq_release (scenes : List SceneRec) (N : Nat)
    (st : BatchState)
    (hInv : Inv scenes N st) (i : Nat) (hi : i < st.nLanes)
    (hph : (st.lanes i).phase = .afterAcquire) :
    Inv scenes N (releaseWake (setLane st i { st.lanes i with phase := .done })) := by
  obtain ⟨nl, smax, lscenes, lact, noFuture, prevDone, seqOK, descIff, holders,
    curLe, qn, qw⟩ := hInv
  have hold1 : holder (st.lanes i) = true := by
    unfold holder
    rw [hph]
  set st1 := setLane st i { st.lanes i with phase := .done } with hst1
  have hsem := sem_after_release st st1 i { st.lanes i with phase := .done }
    rfl rfl rfl rfl rfl hi hold1 (by unfold holder; rfl)
    holders curLe qn qw
  obtain ⟨hgn, hgm, hgd, hgs, hgt, hgf⟩ := releaseWake_parts st1
  have hshape : ∀ j, (¬j = i → (releaseWake st1).lanes j = st.lanes j ∨
        ((st.lanes j).phase = .waiting ∧
          (releaseWake st1).lanes j = { st.lanes j with phase := .afterAcquire })) ∧
      (j = i → (releaseWake st1).lanes j = { st.lanes i with phase := .done }) := by
    intro j
    rcases releaseWake_lanes st1 with ⟨hq0, hlan, _, _⟩ | ⟨w, rest, hq1, hlan, _, _⟩
    · constructor
      · intro hj
        rw [hlan]
        show Function.update st.lanes i _ j = _ ∨ _
        rw [Function.update_noteq hj]
        exact Or.inl rfl
      · intro hj
        subst hj
        rw [hlan]
        show Function.update st.lanes j _ j = _
        rw [Function.update_same]
    · have hwq : w ∈ st.semQueue := by
        have h0 : st1.semQueue = st.semQueue := rfl
        rw [← h0, hq1]
        exact List.mem_cons_self w rest
      obtain ⟨hwn, hwph⟩ := qw w hwq
      have hwi : ¬w = i := by
        intro hcontra
        rw [hcontra] at hwph
        unfold holder at hold1
        rw [hwph] at hold1
        simp at hold1
      have hw1 : st1.lanes w = st.lanes w := by
        show Function.update st.lanes i _ w = _
        rw [Function.update_noteq hwi]
      constructor
      · intro hj
        by_cases hjw : j = w
        · subst hjw
          rw [hlan, Function.update_same, hw1]
          exact Or.inr ⟨hwph, rfl⟩
        · rw [hlan, Function.update_noteq hjw]
          show Function.update st.lanes i _ j = _ ∨ _
          rw [Function.update_noteq hj]
          exact Or.inl rfl
      · intro hj
        have hjw : ¬j = w := by
          intro hc
          rw [hj] at hc
          exact hwi hc.symm
        rw [hlan, Function.update_noteq hjw]
        show Function.update st.lanes i _ j = _
        rw [hj, Function.update_same]
  refine ⟨by rw [hgn]; exact nl, by rw [hgm]; exact smax, ?_, ?_, ?_, ?_, ?_, ?_,
    hsem.1, hsem.2.1, hsem.2.2.1, hsem.2.2.2⟩
  · intro j
    by_cases hj : j = i
    · subst hj
      rw [(hshape j).2 rfl]
      exact lscenes j
    · rcases (hshape j).1 hj with h2 | ⟨_, h2⟩ <;> rw [h2] <;> exact lscenes j
  · intro j hj2
    by_cases hj : j = i
    · subst hj
      rw [(hshape j).2 rfl] at hj2
      exfalso
      rcases hj2 with h | h
      · simp at h
      · unfold holder at h
        simp at h
    · rcases (hshape j).1 hj with h2 | ⟨hwph, h2⟩
      · rw [h2] at hj2 ⊢
        exact lact j hj2
      · rw [h2] at hj2 ⊢
        exact lact j (Or.inl hwph)
  · intro j q e2 hq2 hcond
    rw [hgt]
    have hgt2 : st1.trace = st.trace := rfl
    rw [hgt2]
    by_cases hj : j = i
    · subst hj
      rw [(hshape j).2 rfl] at hq2 hcond
      refine noFuture j q e2 hq2 ?_
      rcases hcond with h | ⟨h1, _⟩
      · exact Or.inl h
      · refine Or.inr ⟨h1, ?_⟩
        unfold started
        rw [hph]
    · have hcond2 : (st.lanes j).idx < q ∨
          (q = (st.lanes j).idx ∧ started (st.lanes j).phase = false) := by
        rcases (hshape j).1 hj with h2 | ⟨hwph, h2⟩
        · rw [h2] at hcond
          exact hcond
        · rw [h2] at hcond
          rcases hcond with h | ⟨h1, _⟩
          · exact Or.inl h
          · refine Or.inr ⟨h1, ?_⟩
            unfold started
            rw [hwph]
      have hq3 : (st.lanes j).scenes[q]? = some e2 := by
        rcases (hshape j).1 hj with h2 | ⟨_, h2⟩ <;> rw [h2] at hq2 <;> exact hq2
      exact noFuture j q e2 hq3 hcond2
  · intro j q e2 hqlt hq2
    rw [hgt, hgs]
    have hgt2 : st1.trace = st.trace := rfl
    have hgs2 : st1.stop = st.stop := rfl
    rw [hgt2, hgs2]
    by_cases hj : j = i
    · subst hj
      rw [(hshape j).2 rfl] at hqlt hq2
      exact prevDone j q e2 hqlt hq2
    · have hq3 : (st.lanes j).scenes[q]? = some e2 := by
        rcases (hshape j).1 hj with h2 | ⟨_, h2⟩ <;> rw [h2] at hq2 <;> exact hq2
      have hqlt2 : q < (st.lanes j).idx := by
        rcases (hshape j).1 hj with h2 | ⟨_, h2⟩ <;> rw [h2] at hqlt <;> exact hqlt
      exact prevDone j q e2 hqlt2 hq3
  · intro j k a2 b2 hk hk1
    rw [hgt]
    have hgt2 : st1.trace = st.trace := rfl
    rw [hgt2]
    have hk2 : (st.lanes j).scenes[k]? = some a2 := by
      by_cases hj : j = i
      · subst hj
        rw [(hshape j).2 rfl] at hk
        exact hk
      · rcases (hshape j).1 hj with h2 | ⟨_, h2⟩ <;> rw [h2] at hk <;> exact hk
    have hk12 : (st.lanes j).scenes[k + 1]? = some b2 := by
      by_cases hj : j = i
      · subst hj
        rw [(hshape j).2 rfl] at hk1
        exact hk1
      · rcases (hshape j).1 hj with h2 | ⟨_, h2⟩ <;> rw [h2] at hk1 <;> exact hk1
    exact seqOK j k a2 b2 hk2 hk12
  · intro x
    rw [hgd]
    have hgd2 : st1.descs = st.descs := rfl
    rw [hgd2, descIff x]
    constructor
    · rintro ⟨j, hj1, hj2⟩
      have hji : ¬j = i := by
        intro hcontra
        subst hcontra
        unfold inJobB at hj1
        rw [hph] at hj1
        cases hj1
      rcases (hshape j).1 hji with h2 | ⟨hwph, h2⟩
      · exact ⟨j, by rw [h2]; exact hj1, by rw [h2]; exact hj2⟩
      · exfalso
        unfold inJobB at hj1
        rw [hwph] at hj1
        cases hj1
    · rintro ⟨j, hj1, hj2⟩
      by_cases hj : j = i
      · subst hj
        rw [(hshape j).2 rfl] at hj1
        unfold inJobB at hj1
        simp at hj1
      · rcases (hshape j).1 hj with h2 | ⟨hwph, h2⟩
        · rw [h2] at hj1 hj2
          exact ⟨j, hj1, hj2⟩
        · rw [h2] at hj1
          unfold inJobB at hj1
          simp at hj1

/-- The invariant holds at the start of a batch run. -/
theorem Inv_init (scenes : List SceneRec) (N : Nat) :
    Inv scenes N (initState scenes N) := by
  refine ⟨rfl, rfl, fun i => rfl, ?_, ?_, ?_, ?_, ?_, ?_, ?_, ?_, ?_⟩
  · intro i h
    exfalso
    rcases h with h | h
    · simp [initState, initLanes] at h
    · simp [initState, initLanes, holder] at h
  · intro i q e h1 h2
    simp [initState]
  · intro i q e h1 h2
    simp [initState, initLanes] at h1
  · intro i k a b h1 h2 m hm
    simp [initState] at hm
  · intro e
    constructor
    · intro h
      simp [initState] at h
    · rintro ⟨j, hj1, _⟩
      simp [initState, initLanes, inJobB] at hj1
  · unfold holderCount
    simp only [initState]
    rw [List.countP_eq_zero]
    intro j hj
    simp [initLanes, holder]
  · exact Nat.zero_le N
  · exact List.nodup_nil
  · intro w hw
    simp [initState] at hw

/-- One step of the batch system preserves the invariant. -/
theorem Inv_step (scenes : List SceneRec) (N : Nat) (o : Nat → Nat → Bool)
    (hnodup : (scenes.map (·.id)).Nodup)
    (st st2 : BatchState) (hInv : Inv scenes N st) (hstep : Step o st st2) :
    Inv scenes N st2 := by
  cases hstep with
  | lane_end i hi hph hidx =>
    refine Inv_phase_only scenes N st hInv i hi .done ?_ ?_ ?_ ?_ ?_ ?_
    · unfold holder
      rw [hph]
    · unfold inJobB
      rfl
    · unfold inJobB
      rw [hph]
    · intro h
      exfalso
      rcases h with h | h
      · cases h
      · simp [holder] at h
    · intro _
      unfold started
      rw [hph]
    · rw [hph]
      intro h
      cases h
  | stop_before i hi hph hidx hstop =>
    refine Inv_phase_only scenes N st hInv i hi .done ?_ ?_ ?_ ?_ ?_ ?_
    · unfold holder
      rw [hph]
    · unfold inJobB
      rfl
    · unfold inJobB
      rw [hph]
    · intro h
      exfalso
      rcases h with h | h
      · cases h
      · simp [holder] at h
    · intro _
      unfold started
      rw [hph]
    · rw [hph]
      intro h
      cases h
  | acq_grant i hi hph hidx hstop hcur =>
    exact Inv_acq_grant scenes N st hInv i hi hph hidx hcur
  | acq_wait i hi hph hidx hstop hcur =>
    exact Inv_acq_wait scenes N st hInv i hi hph hidx
  | stop_after_acq i hi hph hstop =>
    exact Inv_stop_after_acq_release scenes N st hInv i hi hph
  | enter_retry i hi hph hstop =>
    refine Inv_phase_only scenes N st hInv i hi (.retrying 0) ?_ ?_ ?_ ?_ ?_ ?_
    · unfold holder
      rw [hph]
    · unfold inJobB
      rfl
    · unfold inJobB
      rw [hph]
    · intro _
      refine hInv.lact i (Or.inr ?_)
      unfold holder
      rw [hph]
    · intro h
      exfalso
      simp [started] at h
    · rw [hph]
      intro h
      cases h
  | stop_retry i a e hi hph hstop hcur =>
    exact Inv_stop_retry_release scenes N st _ hInv i a hi hph hstop
      rfl rfl rfl rfl rfl rfl rfl rfl
  | start_job i a e hi hph hstop hcur =>
    exact Inv_start_job scenes N st hnodup hInv i a e hi hph hstop hcur
  | job_succ i a e hi hph hcur hout =>
    exact Inv_finish_remove_release scenes N st _ hnodup hInv i a e hi hph hcur
      rfl rfl rfl rfl rfl rfl rfl rfl
  | job_fail_retry i a e hi hph hcur hout hlt =>
    exact Inv_job_fail_retry scenes N st hnodup hInv i a e hi hph hcur
  | job_fail_last i a e hi hph hcur hout hge =>
    exact Inv_finish_remove_release scenes N st _ hnodup hInv i a e hi hph hcur
      rfl rfl rfl rfl rfl rfl rfl rfl
  | set_stop =>
    exact ⟨hInv.nl, hInv.smax, hInv.lscenes, hInv.lact, hInv.noFuture,
      fun i q e h1 h2 => Or.inr rfl, hInv.seqOK, hInv.descIff, hInv.holders,
      hInv.curLe, hInv.queueNodup, hInv.queueWait⟩

/-- The invariant holds in every reachable state of a batch run. -/
theorem Inv_reach (scenes : List SceneRec) (N : Nat) (o : Nat → Nat → Bool)
    (hnodup : (scenes.map (·.id)).Nodup)
    (st : BatchState) (h : Reach o scenes N st) : Inv scenes N st := by
  unfold Reach at h
  induction h with
  | refl => exact Inv_init scenes N
  | tail h1 h2 ih => exact Inv_step scenes N o hnodup _ _ ih h2

/-- A lane with a call in flight is a slot holder. -/
theorem inJobB_holder (L : Lane) : inJobB L = true → holder L = true := by
  unfold inJobB holder
  cases L.phase <;> simp

/-- C1: in any reachable state of a batch run over scenes with distinct ids
(grouped by trimmed scene name, with any limiter bound ≥ 1 and any pattern
of per-attempt outcomes and cancellation timing), for consecutive entities
`a` (at position `i`) and `b` (at position `i+1`) of one group: every write
of `b`'s task descriptor in the event trace is preceded by a removal of
`a`'s descriptor, and at most one entity of the group ever has a descriptor
in the store (at most one mid-attempt per group, entities start in list
order). -/
theorem C1_group_sequencing (scenes : List SceneRec) (N : Nat)
    (o : Nat → Nat → Bool) (hN : 1 ≤ N)
    (hnodup : (scenes.map (·.id)).Nodup)
    (st : BatchState) (hreach : Reach o scenes N st)
    (g : List Nat) (i0 : Nat) (hg : (groupsOf scenes)[i0]? = some g)
    (i a b : Nat) (ha : g[i]? = some a) (hb : g[i + 1]? = some b) :
    (∀ m : Nat, st.trace[m]? = some (Event.write b) →
      ∃ j : Nat, j < m ∧ st.trace[j]? = some (Event.remove a)) ∧
    (∀ x ∈ st.descs, ∀ y ∈ st.descs, x ∈ g → y ∈ g → x = y) := by
  have hInv := Inv_reach scenes N o hnodup st hreach
  have hi0len : i0 < (groupsOf scenes).length := (List.getElem?_eq_some.1 hg).1
  have hgetd : (groupsOf scenes).getD i0 [] = g := by
    rw [List.getD_eq_getElem _ _ hi0len]
    exact (List.getElem?_eq_some.1 hg).2
  have hsc : (st.lanes i0).scenes = g := by
    rw [hInv.lscenes i0, hgetd]
  constructor
  · refine hInv.seqOK i0 i a b ?_ ?_
    · rw [hsc]
      exact ha
    · rw [hsc]
      exact hb
  · intro x hx y hy hxg hyg
    obtain ⟨jx, hjx1, hjx2⟩ := (hInv.descIff x).1 hx
    obtain ⟨jy, hjy1, hjy2⟩ := (hInv.descIff y).1 hy
    unfold curScene at hjx2 hjy2
    have hxmem : x ∈ (st.lanes jx).scenes := List.getElem?_mem hjx2
    have hymem : y ∈ (st.lanes jy).scenes := List.getElem?_mem hjy2
    have hjxi : jx = i0 := by
      by_contra hne
      refine groups_disjoint scenes hnodup jx i0 hne x ?_ ?_
      · rw [← hInv.lscenes jx]
        exact hxmem
      · rw [hgetd]
        exact hxg
    have hjyi : jy = i0 := by
      by_contra hne
      refine groups_disjoint scenes hnodup jy i0 hne y ?_ ?_
      · rw [← hInv.lscenes jy]
        exact hymem
      · rw [hgetd]
        exact hyg
    subst hjxi
    subst hjyi
    have := hjx2.symm.trans hjy2
    injection this

/-- Witness for C1 at the initial state of a two-scene single-group run. -/
theorem C1_group_sequencing_witness :
    (∀ m : Nat,
      ((initState [⟨0, "A", none⟩, ⟨1, "A", none⟩] 3).trace)[m]? =
          some (Event.write 1) →
      ∃ j : Nat, j < m ∧
        ((initState [⟨0, "A", none⟩, ⟨1, "A", none⟩] 3).trace)[j]? =
          some (Event.remove 0)) ∧
    (∀ x ∈ (initState [⟨0, "A", none⟩, ⟨1, "A", none⟩] 3).descs,
      ∀ y ∈ (initState [⟨0, "A", none⟩, ⟨1, "A", none⟩] 3).descs,
      x ∈ ([0, 1] : List Nat) → y ∈ ([0, 1] : List Nat) → x = y) :=
  C1_group_sequencing [⟨0, "A", none⟩, ⟨1, "A", none⟩] 3 (fun _ _ => true)
    (by decide) (by decide) _ Relation.ReflTransGen.refl [0, 1] 0 (by decide)
    0 0 1 (by decide) (by decide)

/-- C2: in any reachable state of a batch run the number of in-flight
remote calls never exceeds the configured limiter bound `N` (3 for the main
sweep, 2 for the review pass), whatever the entity count, attempt outcomes
or cancellation timing; and for the `createSemaphore` primitive, `acquire`
resolves immediately exactly when fewer than `max` holders are active
(queueing the caller otherwise without taking a slot) and `release` wakes
exactly the first queued waiter in FIFO order. -/
theorem C2_limiter_bound (scenes : List SceneRec) (N : Nat)
    (o : Nat → Nat → Bool)
    (hnodup : (scenes.map (·.id)).Nodup)
    (st : BatchState) (hreach : Reach o scenes N st) :
    (inJobCount st ≤ N ∧ st.semCur ≤ N) ∧
    (∀ (ps : PureSem) (w : Nat),
      ((pAcquire ps w).2 = true ↔ ps.current < ps.maxc) ∧
      ((pAcquire ps w).2 = false →
        (pAcquire ps w).1.queue = ps.queue ++ [w] ∧
        (pAcquire ps w).1.current = ps.current)) ∧
    (∀ (ps : PureSem) (w : Nat) (rest : List Nat), ps.queue = w :: rest →
      (pRelease ps).2 = some w ∧ (pRelease ps).1.queue = rest ∧
      (pRelease ps).1.current = ps.current - 1 + 1) ∧
    (∀ ps : PureSem, ps.queue = [] →
      (pRelease ps).2 = none ∧ (pRelease ps).1.current = ps.current - 1) := by
  have hInv := Inv_reach scenes N o hnodup st hreach
  refine ⟨⟨?_, ?_⟩, ?_, ?_, ?_⟩
  · have h1 : inJobCount st ≤ holderCount st := by
      unfold inJobCount holderCount
      refine List.countP_mono_left ?_
      intro j _ hj
      exact inJobB_holder (st.lanes j) hj
    rw [hInv.holders] at h1
    have h2 := hInv.curLe
    rw [hInv.smax] at h2
    omega
  · have h2 := hInv.curLe
    rw [hInv.smax] at h2
    exact h2
  · intro ps w
    constructor
    · unfold pAcquire
      by_cases h : ps.current < ps.maxc
      · simp [h]
      · simp [h]
    · intro hfalse
      unfold pAcquire at hfalse ⊢
      by_cases h : ps.current < ps.maxc
      · simp [h] at hfalse
      · simp [h]
  · intro ps w rest hq
    unfold pRelease
    rw [hq]
    exact ⟨rfl, rfl, rfl⟩
  · intro ps hq
    unfold pRelease
    rw [hq]
    exact ⟨rfl, rfl⟩

/-- Witness for C2 at the initial state of a small run, plus the FIFO wake
of a concrete semaphore. -/
theorem C2_limiter_bound_witness :
    (inJobCount (initState [⟨0, "A", none⟩, ⟨1, "B", none⟩] 3) ≤ 3 ∧
      (initState [⟨0, "A", none⟩, ⟨1, "B", none⟩] 3).semCur ≤ 3) ∧
    (pRelease ⟨2, 2, [7, 9]⟩).2 = some 7 ∧
    (pAcquire ⟨3, 3, []⟩ 4).2 = false := by
  have h := C2_limiter_bound [⟨0, "A", none⟩, ⟨1, "B", none⟩] 3 (fun _ _ => false)
    (by decide) _ Relation.ReflTransGen.refl
  refine ⟨h.1, (h.2.2.1 ⟨2, 2, [7, 9]⟩ 7 [9] rfl).1, ?_⟩
  have h2 := (h.2.1 ⟨3, 3, []⟩ 4).1
  by_cases hb : (pAcquire ⟨3, 3, []⟩ 4).2 = true
  · exfalso
    have := h2.1 hb
    simp at this
  · simp at hb
    exact hb

end NextChapter
